import Mathlib

/-!
Verification development for the crawling / content-addressable deduplication /
review / rollback subsystem of the `cleanerandsorter` ingest service.

The Python sources embedded here (shallowly) are:
  * `ingest-service/app/application/crawler.py`   — crawler, hash index, duplicate resolver
  * `ingest-service/app/application/review.py`    — review confirmation destination logic
  * `ingest-service/app/application/duplicates.py` — promote-duplicate endpoint
  * `ingest-service/app/domain/services/rollback_service.py` — snapshot rollback

Modelling conventions:
  * Filesystem paths are lists of components (`Path := List String`); the string
    form handed to the classification helpers is recovered by joining with `'/'`
    and a leading slash, exactly as `str(Path(...))` would produce for the
    absolute paths the crawler walks.
  * The filesystem is a finite association list from paths to file stats
    (`digest`, `size`, `mtime`).  A content digest is modelled as a `Nat`
    standing for the sha256 value; identical content yields identical digests.
  * `mtime` values (Python floats) are modelled as integers; only their
    ordering and equality are used by the code.
  * `shutil.move` / `Path.replace` are modelled as a lookup + erase + insert;
    both overwrite an existing regular file at the destination, as on POSIX.
  * The `datetime.fromtimestamp(mtime).year` calendar computation is abstracted
    as a configuration field `yearOf : Int → Nat`; no claim depends on the
    concrete calendar.
  * I/O failures other than "the source of a move does not exist" are not
    modelled; Python's per-file `except` / error counting is mirrored for the
    move failures that the filesystem model itself can produce.
-/

set_option autoImplicit false
set_option synthInstance.maxHeartbeats 100000

namespace CleanerSorter

/-- A filesystem path, as its list of components below the root. -/
abbrev Path := List String

/-- Stat data of a regular file: content digest (sha256, abstracted as a `Nat`),
size in bytes, and modification time. -/
structure FileStat where
  digest : Nat
  size : Nat
  mtime : Int
deriving DecidableEq, Repr

/-- The filesystem: a finite map from paths to file stats, as an association
list (no duplicate keys in well-formed states). -/
abbrev Fs := List (Path × FileStat)

/-- Content record held by the crawler hash index (`state.hash_index[h]` /
the shelve store): primary path, mtime, size and owning customer root. -/
structure ContentRecord where
  path : Path
  mtime : Int
  size : Nat
  customer : String
deriving DecidableEq, Repr

/-- The persisted hash index: digest → content record, as an association list.
The in-memory dict and the shelve store are written together by the code and
are modelled as this single map. -/
abbrev HashIndex := List (Nat × ContentRecord)

/-- Lookup in the filesystem map. -/
def fsFind (p : Path) : Fs → Option FileStat
  | [] => none
  | (q, f) :: t => if q = p then some f else fsFind p t

/-- Remove a path from the filesystem map. -/
def fsErase (p : Path) : Fs → Fs
  | [] => []
  | (q, f) :: t => if q = p then fsErase p t else (q, f) :: fsErase p t

/-- Create/overwrite the file at `p`. -/
def fsInsert (p : Path) (f : FileStat) (fs : Fs) : Fs :=
  (p, f) :: fsErase p fs

/-- Lookup in the hash index. -/
def idxFind (h : Nat) : HashIndex → Option ContentRecord
  | [] => none
  | (k, r) :: t => if k = h then some r else idxFind h t

/-- Remove a digest from the hash index. -/
def idxErase (h : Nat) : HashIndex → HashIndex
  | [] => []
  | (k, r) :: t => if k = h then idxErase h t else (k, r) :: idxErase h t

/-- Upsert a record into the hash index (`state.hash_index[h] = ...` plus the
write-through `db[h] = ...`). -/
def idxInsert (h : Nat) (r : ContentRecord) (idx : HashIndex) : HashIndex :=
  (h, r) :: idxErase h idx

/-- Last component of a path (`Path(...).name` / the walk's `name`). -/
def fileName (p : Path) : String := p.getLastD ""

/-- A file is quarantined when some directory component on its path is the
`_duplicates` folder. -/
def isQuar (p : Path) : Prop := "_duplicates" ∈ p.dropLast

instance (p : Path) : Decidable (isQuar p) := by
  unfold isQuar; exact inferInstance

/-- String form of a path as Python's `str(Path(...))` produces for the
  absolute paths being crawled: a leading slash, components joined by `/`. -/
def joinChars : List String → List Char
  | [] => []
  | [s] => s.toList
  | s :: t => s.toList ++ '/' :: joinChars t

/-- Absolute path string of a path, as a character list. -/
def pathStr (p : Path) : List Char := '/' :: joinChars p

/-- Lowercase a character list (`str.lower()`). -/
def lowerChars (l : List Char) : List Char := l.map Char.toLower

/-- Lowercased characters of a `String` (`r.lower()` for config strings). -/
def lowerStr (s : String) : List Char := lowerChars s.toList

/-- Characters after the last `/` (`os.path.basename`). -/
def basenameChars (s : List Char) : List Char :=
  (s.reverse.takeWhile (fun c => c ≠ '/')).reverse

/-- Characters before the last `/`, with trailing slashes stripped unless the
result is all slashes (`os.path.dirname` for POSIX paths). -/
def dirnameChars (s : List Char) : List Char :=
  let tail := s.reverse.takeWhile (fun c => c ≠ '/')
  let head := s.take (s.length - tail.length)
  if head.all (fun c => c = '/') then head
  else (head.reverse.dropWhile (fun c => c = '/')).reverse

/-- Does the haystack start with the needle? -/
def charsStartWith : List Char → List Char → Bool
  | [], _ => true
  | _ :: _, [] => false
  | a :: as, b :: bs => a = b && charsStartWith as bs

/-- Substring test (Python's `needle in haystack` on strings). -/
def charsContain : List Char → List Char → Bool
  | needle, [] => needle.isEmpty
  | needle, b :: bs => charsStartWith needle (b :: bs) || charsContain needle bs

/-- Python regex `\w` over the ASCII repertoire used by the repository:
letters, digits, underscore. -/
def isWordChar (c : Char) : Bool := c.isAlphanum || c = '_'

/-- A character of the class `[\w\- ]` of the customer-code regex. -/
def isCodeTailChar (c : Char) : Bool := isWordChar c || c = '-' || c = ' '

/-- Attempt to match the regex `(\d{4,6})_([\w\- ]+)` anchored at the head of
`l`, returning the whole match (`m.group(0)`).  A run of more than six digits
cannot match at this position (the character after at most six digits is again
a digit, never `_`), which is exactly the backtracking behaviour of the
pattern. -/
def matchCodeAt (l : List Char) : Option (List Char) :=
  let ds := l.takeWhile Char.isDigit
  if 4 ≤ ds.length ∧ ds.length ≤ 6 then
    match l.drop ds.length with
    | '_' :: rest =>
      let w := rest.takeWhile isCodeTailChar
      if w.isEmpty then none else some (ds ++ '_' :: w)
    | _ => none
  else none

/-- Python `re.search(r"(\d{4,6})_([\w\- ]+)", s)`: leftmost match of the
customer-code pattern, returning `m.group(0)`. -/
def findCustomerCode : List Char → Option (List Char)
  | [] => none
  | c :: t =>
    match matchCodeAt (c :: t) with
    | some g => some g
    | none => findCustomerCode t

/-- Function `determine_customer_root` from `crawler.py`: first the numeric-code regex
on the directory component, then a case-insensitive internal-root substring
match in config order, then the generic fallback bucket. -/
def determine_customer_root (filePath : List Char) (internalRoots : List String) : String :=
  match findCustomerCode (dirnameChars filePath) with
  | some g => String.mk g
  | none =>
    match internalRoots.find? (fun r => charsContain (lowerStr r) (lowerChars filePath)) with
    | some r => r
    | none => "ALLGEMEIN"

/-- The ordered category → keyword table of `determine_subfolder`. -/
def subfolderCandidates : List (String × List String) :=
  [("Projekte", ["projekt", "projects", "proj_"]),
   ("Portale", ["portal", "website", "site"]),
   ("Kampagnen", ["kampagne", "campaign"]),
   ("Angebote", ["angebot", "offer", "quote"]),
   ("Archiv", ["archiv", "archive"])]

/-- Function `determine_subfolder` from `crawler.py`: first category whose keyword list
hits the lowercased path or filename, else the fallback subfolder. -/
def determine_subfolder (filePath : List Char) : String :=
  let lowerP := lowerChars filePath
  let fname := lowerChars (basenameChars filePath)
  match subfolderCandidates.find?
      (fun e => e.2.any (fun k => charsContain k.toList lowerP || charsContain k.toList fname)) with
  | some e => e.1
  | none => "Allgemein"

/-- Function `target_dir_for` from `crawler.py`: append the (calendar) year segment only
when year subfolders are enabled and the subfolder is year-eligible.  The
calendar function `yearOf` abstracts `datetime.fromtimestamp(...).year`. -/
def target_dir_for (centralBase : Path) (customerRoot subfolder : String)
    (enableYear : Bool) (yearFoldersUnder : List String) (yearOf : Int → Nat)
    (mtime : Int) : Path :=
  if enableYear && yearFoldersUnder.contains subfolder then
    centralBase ++ [customerRoot, subfolder, toString (yearOf mtime)]
  else
    centralBase ++ [customerRoot, subfolder]

/-- Crawl configuration (`ingest-config.yaml` after parsing, restricted to the
fields the crawler reads), plus the abstracted calendar function. -/
structure IngestConfig where
  centralBase : Path
  internalRoots : List String
  shares : List Path
  enableYearSubfolders : Bool
  yearFoldersUnder : List String
  yearOf : Int → Nat

/-- Classified destination of a discovered file: target directory of its
customer root and subfolder, joined with its original name (no suffixing). -/
def dstFor (cfg : IngestConfig) (src : Path) (st : FileStat) : Path :=
  target_dir_for cfg.centralBase
    (determine_customer_root (pathStr src) cfg.internalRoots)
    (determine_subfolder (pathStr src))
    cfg.enableYearSubfolders cfg.yearFoldersUnder cfg.yearOf st.mtime
  ++ [fileName src]

/-- The `pathlib` stem/suffix split of a file name: the suffix is `name[i:]` for
the last dot index `i` when `0 < i < len(name) - 1`, else empty. -/
def splitStemSuffix (name : String) : String × String :=
  let cs := name.toList
  match cs.reverse.findIdx? (fun c => c = '.') with
  | none => (name, "")
  | some rj =>
    let i := cs.length - 1 - rj
    if 0 < i ∧ i < cs.length - 1 then (String.mk (cs.take i), String.mk (cs.drop i))
    else (name, "")

/-- One step of the quarantine collision loop: `f"{stem}_{counter}{suffix}"`. -/
def withCounter (name : String) (k : Nat) : String :=
  let p := splitStemSuffix name
  p.1 ++ "_" ++ toString k ++ p.2

/-- The `while target.exists(): target = dir / f"{target.stem}_{counter}{target.suffix}"`
loop: find the first candidate name not present in `dir`.  The loop terminates
on a real filesystem because candidate names strictly grow; the model carries
fuel (always called with more fuel than there are files). -/
def resolveDupName (fs : Fs) (dir : Path) : Nat → Nat → String → String
  | 0, _, name => name
  | fuel + 1, counter, name =>
    if fsFind (dir ++ [name]) fs = none then name
    else resolveDupName fs dir fuel (counter + 1) (withCounter name counter)

/-- Running counters of one crawl pass (`state.stats`; the per-customer
breakdown is an aggregation of the same events and is not modelled). -/
structure CrawlStats where
  processed : Nat
  moved : Nat
  duplicates : Nat
  errors : Nat
deriving DecidableEq, Repr

/-- Zeroed counters at the start of a crawl run. -/
def initStats : CrawlStats := ⟨0, 0, 0, 0⟩

/-- The mutable state the crawl pass acts on: the filesystem, the hash index
(in-memory dict and write-through shelve store together) and the counters. -/
structure CrawlState where
  fs : Fs
  index : HashIndex
  stats : CrawlStats
deriving DecidableEq, Repr

/-- Quarantine destination for a displaced previous primary (`keep_new`
branch): `prev_path.parents[1]` when it exists, else the central base, then
`_duplicates`, then the collision-resolved name of the previous primary. -/
def newPrevFor (cfg : IngestConfig) (fs : Fs) (prevPath : Path) : Path :=
  let base := if prevPath.length ≥ 2 then prevPath.dropLast.dropLast else cfg.centralBase
  let dupDir := base ++ ["_duplicates"]
  dupDir ++ [resolveDupName fs dupDir (fs.length + 1) 1 (fileName prevPath)]

/-- Quarantine destination for a losing new duplicate (`else` branch): the
`_duplicates` folder of the new file's own classified customer root, with the
collision-resolved name of the new file. -/
def quarTargetFor (cfg : IngestConfig) (fs : Fs) (customer name : String) : Path :=
  let dupDir := cfg.centralBase ++ [customer, "_duplicates"]
  dupDir ++ [resolveDupName fs dupDir (fs.length + 1) 1 name]

/-- The body of the per-file loop of `_crawl_once` for one discovered source
file `src`: stat + hash, classify, then either move to the classified
destination and insert a fresh record, or resolve the duplicate.  Exceptions of
a failing move (source path absent) are caught by the surrounding per-file
`except`, counted in `errors`, and leave any moves already performed in place,
exactly as in the Python control flow. -/
def processFile (cfg : IngestConfig) (s : CrawlState) (src : Path) : CrawlState :=
  match fsFind src s.fs with
  | none => s
  | some st =>
    let stats1 : CrawlStats := { s.stats with processed := s.stats.processed + 1 }
    let customer := determine_customer_root (pathStr src) cfg.internalRoots
    let dst := dstFor cfg src st
    match idxFind st.digest s.index with
    | none =>
      { fs := fsInsert dst st (fsErase src s.fs)
        index := idxInsert st.digest ⟨dst, st.mtime, st.size, customer⟩ s.index
        stats := { stats1 with moved := stats1.moved + 1 } }
    | some prev =>
      if st.mtime > prev.mtime ∨ (st.mtime = prev.mtime ∧ st.size > prev.size) then
        let newPrev := newPrevFor cfg s.fs prev.path
        match fsFind prev.path s.fs with
        | none =>
          { s with stats := { stats1 with errors := stats1.errors + 1 } }
        | some pf =>
          let fs1 := fsInsert newPrev pf (fsErase prev.path s.fs)
          match fsFind src fs1 with
          | none => { fs := fs1, index := s.index, stats := { stats1 with errors := stats1.errors + 1 } }
          | some st2 =>
            { fs := fsInsert dst st2 (fsErase src fs1)
              index := idxInsert st.digest ⟨dst, st.mtime, st.size, customer⟩ s.index
              stats := { stats1 with duplicates := stats1.duplicates + 1 } }
      else
        let target := quarTargetFor cfg s.fs customer (fileName src)
        { fs := fsInsert target st (fsErase src s.fs)
          index := s.index
          stats := { stats1 with duplicates := stats1.duplicates + 1 } }

/-- A crawl pass over the files discovered by the directory walk, in walk
order.  A run stopped cooperatively corresponds to a prefix of the list. -/
def crawlFiles (cfg : IngestConfig) (s : CrawlState) (files : List Path) : CrawlState :=
  files.foldl (processFile cfg) s

/-- The crawler control state (`CrawlerState` flags of `crawler.py`). -/
structure CrawlerControl where
  running : Bool
  stopRequested : Bool
  startedAt : Option Nat
  finishedAt : Option Nat
deriving DecidableEq, Repr

/-- Endpoint `start_crawler`: HTTP 409 when already running; HTTP 500 when the config
file is missing (`load_ingest_config` raises before any state is touched);
otherwise reset the state and launch the run.  The configuration argument is
`none` when `config/ingest-config.yaml` does not exist. -/
def start_crawler (cfgOpt : Option IngestConfig) (c : CrawlerControl) (now : Nat) :
    Except Nat CrawlerControl :=
  if c.running then Except.error 409
  else
    match cfgOpt with
    | none => Except.error 500
    | some _ =>
      Except.ok { running := true, stopRequested := false, startedAt := some now, finishedAt := none }

/-- The category → subfolder dictionary of `confirm_review`, keyed by the
lowercased confirmed category, defaulting to the fallback subfolder. -/
def categorySubfolder (category : String) : String :=
  let c := String.mk (lowerStr category)
  match [("finanzen", "Archiv"), ("projekte", "Projekte"), ("personal", "Archiv"),
         ("footage", "Projekte"), ("unsorted", "Allgemein")].find? (fun e => e.1 = c) with
  | some e => e.2
  | none => "Allgemein"

/-- Customer-root resolution inside `confirm_review`: the same regex on the
directory component, then the first matching element of the iterated
`set(internal_roots)` (`setOrder` being that set's iteration order), then the
generic fallback. -/
def review_customer_root (setOrder : List String) (origPath : List Char) : String :=
  match findCustomerCode (dirnameChars origPath) with
  | some g => String.mk g
  | none =>
    match setOrder.find? (fun r => charsContain (lowerStr r) (lowerChars origPath)) with
    | some r => r
    | none => "ALLGEMEIN"

/-- Destination directory computed by `confirm_review` in `review.py`.
`setOrder` is the iteration order of the Python `set(internal_roots)` (some
ordering of the distinct internal roots).  `mtime` is the resolved timestamp
(current stat of the file if it exists, else the stored one, else `0`);
Python substitutes `datetime.now().year` (`nowYear`) when it is `0`. -/
def confirm_review_dest (cfg : IngestConfig) (setOrder : List String)
    (origPath : List Char) (category : String) (mtime : Int) (nowYear : Nat) : Path :=
  let customer := review_customer_root setOrder origPath
  let sub := categorySubfolder category
  let year := if mtime ≠ 0 then cfg.yearOf mtime else nowYear
  if cfg.enableYearSubfolders && cfg.yearFoldersUnder.contains sub then
    cfg.centralBase ++ [customer, sub, toString year]
  else
    cfg.centralBase ++ [customer, sub]

/-- Result of `promote_duplicate`: whether a missing primary was replaced, the
new location of the demoted previous primary (when a swap happened), and the
resulting filesystem. -/
structure PromoteOutcome where
  replacedMissingPrimary : Bool
  previousPrimary : Option Path
  fs : Fs
deriving DecidableEq, Repr

/-- Endpoint `promote_duplicate` from `duplicates.py`: 404 when the requested file does
not exist, 404 when its digest has no (non-empty) record in the crawler hash
index; when the recorded primary is missing on disk, move the duplicate into
the primary path and report `replaced_missing_primary`; otherwise swap: demote
the current primary into `primary.parents[1]/_duplicates` (with the collision
loop) and move the duplicate into the vacated primary path. -/
def promote_duplicate (fs : Fs) (index : HashIndex) (req : Path) :
    Except Nat PromoteOutcome :=
  match fsFind req fs with
  | none => Except.error 404
  | some f =>
    match idxFind f.digest index with
    | none => Except.error 404
    | some info =>
      if info.path.isEmpty then Except.error 404
      else
        match fsFind info.path fs with
        | none => Except.ok ⟨true, none, fsInsert info.path f (fsErase req fs)⟩
        | some pf =>
          let dupDir :=
            (if info.path.length ≥ 2 then info.path.dropLast.dropLast else info.path.dropLast)
            ++ ["_duplicates"]
          let movedPrimary := dupDir ++ [resolveDupName fs dupDir (fs.length + 1) 1 (fileName info.path)]
          let fs1 := fsInsert movedPrimary pf (fsErase info.path fs)
          match fsFind req fs1 with
          | none => Except.error 500
          | some f2 => Except.ok ⟨false, some movedPrimary, fsInsert info.path f2 (fsErase req fs1)⟩

/-- The five rollback operation types (`RollbackOperation` enum). -/
inductive RollbackOperation where
  | file_processing
  | batch_processing
  | metadata_update
  | classification
  | storage_move
deriving DecidableEq, Repr

/-- A stored snapshot, restricted to the fields the rollback dispatch reads.
The captured per-file database/storage/path data only flows into the external
repository calls, which are abstracted by the restore oracles below;
`hasBatchState` models `'batch' in snapshot.database_state`. -/
structure RbSnapshot where
  id : String
  operationType : RollbackOperation
  fileIds : List String
  batchId : Option String
  hasBatchState : Bool
deriving DecidableEq, Repr

/-- Structure `RollbackResult` (message and duration carry no verified content and are
omitted). -/
structure RollbackResult where
  success : Bool
  filesRestored : Nat
  filesFailed : Nat
  errors : List String
deriving DecidableEq, Repr

/-- The per-file loop shared by all five `_rollback_*` handlers: attempt each
file id in order; a failure (`restore id = some msg`) is appended to the error
list and counted, a success increments the restored counter; every id is
attempted regardless of earlier failures.  `restore` abstracts the repository
calls (database field restore and the move back), returning the exception
message when they raise. -/
def perFileRollback (fileIds : List String) (restore : String → Option String) :
    Nat × Nat × List String :=
  fileIds.foldl
    (fun acc id =>
      match restore id with
      | none => (acc.1 + 1, acc.2.1, acc.2.2)
      | some e => (acc.1, acc.2.1 + 1, acc.2.2 ++ ["File " ++ id ++ ": " ++ e]))
    (0, 0, [])

/-- Handler `_rollback_file_processing`: the per-file restore loop. -/
def rollback_file_processing (snap : RbSnapshot) (restore : String → Option String) :
    Nat × Nat × List String :=
  perFileRollback snap.fileIds restore

/-- Handler `_rollback_batch_processing`: per-file loop, then restore the owning
batch's counters; a batch-restore failure is appended to the error list but
does not change the per-file counts. -/
def rollback_batch_processing (snap : RbSnapshot) (restore : String → Option String)
    (batchRestore : Option String) : Nat × Nat × List String :=
  let r := rollback_file_processing snap restore
  match snap.batchId with
  | some bid =>
    if snap.hasBatchState then
      match batchRestore with
      | some e => (r.1, r.2.1, r.2.2 ++ ["Batch " ++ bid ++ ": " ++ e])
      | none => r
    else r
  | none => r

/-- Snapshot store lookup (in-memory `_snapshots` merged with the persisted
store consulted by the `_load_snapshot` fallback). -/
def snapFind (sid : String) : List (String × RbSnapshot) → Option RbSnapshot
  | [] => none
  | (k, s) :: t => if k = sid then some s else snapFind sid t

/-- Method `rollback_to_snapshot`: not-found snapshots yield a failed result; found
snapshots dispatch on the operation type (a closed enum, so the outer
`except` is unreachable), and `success` is `files_failed == 0`. -/
def rollback_to_snapshot (snaps : List (String × RbSnapshot)) (sid : String)
    (restore : String → Option String) (batchRestore : Option String) : RollbackResult :=
  match snapFind sid snaps with
  | none => ⟨false, 0, 0, ["Snapshot " ++ sid ++ " not found"]⟩
  | some snap =>
    let r :=
      match snap.operationType with
      | .file_processing => rollback_file_processing snap restore
      | .batch_processing => rollback_batch_processing snap restore batchRestore
      | .metadata_update => perFileRollback snap.fileIds restore
      | .classification => perFileRollback snap.fileIds restore
      | .storage_move => perFileRollback snap.fileIds restore
    ⟨decide (r.2.1 = 0), r.1, r.2.1, r.2.2⟩


/-- Number of non-quarantined files on disk whose content hashes to `d`. -/
def primCount (fs : Fs) (d : Nat) : Nat :=
  (fs.filter (fun e => !decide (isQuar e.1) && decide (e.2.digest = d))).length

def cexConfig : IngestConfig :=
  { centralBase := ["sorted"], internalRoots := [], shares := [["share"]],
    enableYearSubfolders := true, yearFoldersUnder := ["Projekte", "Archiv"],
    yearOf := fun _ => 1970 }

def cexFs : Fs :=
  [(["share", "a", "1234_acme", "report.pdf"], ⟨1, 7, 10⟩),
   (["share", "b", "1234_acme", "report.pdf"], ⟨2, 8, 20⟩),
   (["share", "c", "1234_acme", "report2.pdf"], ⟨2, 8, 30⟩),
   (["share", "d", "1234_acme", "r4.pdf"], ⟨1, 7, 40⟩),
   (["share", "e", "1234_acme", "r5.pdf"], ⟨1, 7, 50⟩)]

def cexFiles : List Path := cexFs.map Prod.fst


/-- Well-formed filesystem: no duplicate paths. -/
def fsWf (fs : Fs) : Prop := (fs.map Prod.fst).Nodup

instance (fs : Fs) : Decidable (fsWf fs) := by
  unfold fsWf; exact inferInstance

/-- The central tree: paths that extend the configured central base. -/
def underBase (cfg : IngestConfig) (p : Path) : Prop :=
  p.take cfg.centralBase.length = cfg.centralBase

instance (cfg : IngestConfig) (p : Path) : Decidable (underBase cfg p) := by
  unfold underBase; exact inferInstance

/-- Configuration hygiene: no component of the layout can collide with the
quarantine folder name.  The last conjunct records that a decimal year numeral
is never the string `_duplicates`. -/
def cfgHygiene (cfg : IngestConfig) : Prop :=
  "_duplicates" ∉ cfg.centralBase ∧
  (∀ r ∈ cfg.internalRoots, r ≠ "_duplicates") ∧
  (∀ m : Int, toString (cfg.yearOf m) ≠ "_duplicates")

/-- Claim C1 as the spec states it: starting from a fresh index, after a crawl
pass over files discovered outside the central tree completes, at most one
non-quarantined file hashes to any digest `d`. -/
def dedupInvariantClaim : Prop :=
  ∀ (cfg : IngestConfig) (init : Fs) (files : List Path),
    fsWf init →
    (∀ e ∈ init, ¬ underBase cfg e.1) →
    (∀ e ∈ init, e.1 ∈ files) →
    (∀ p ∈ files, ¬ underBase cfg p) →
    cfgHygiene cfg →
    ∀ d, primCount (crawlFiles cfg ⟨init, [], initStats⟩ files).fs d ≤ 1

/-- A one-file share used to witness the amended dedup invariant. -/
def dedupWitnessFs : Fs := [(["share", "x", "f.txt"], ⟨1, 1, 0⟩)]

/-- Claim C3 as stated: when the new file wins the duplicate comparison it is
moved into the vacated primary path recorded for its digest. -/
def newWinnerToVacatedPathClaim : Prop :=
  ∀ (cfg : IngestConfig) (s : CrawlState) (src : Path) (st : FileStat)
    (prev : ContentRecord) (pf : FileStat),
    fsFind src s.fs = some st →
    idxFind st.digest s.index = some prev →
    (st.mtime > prev.mtime ∨ (st.mtime = prev.mtime ∧ st.size > prev.size)) →
    fsFind prev.path s.fs = some pf →
    src ≠ prev.path →
    src ≠ newPrevFor cfg s.fs prev.path →
    fsFind prev.path (processFile cfg s src).fs = some st

/-- Claim C4 as stated: when the new file wins, the displaced previous primary
lands in the `_duplicates` folder directly under its customer's root
directory. -/
def displacedPrimaryToCustomerRootClaim : Prop :=
  ∀ (cfg : IngestConfig) (s : CrawlState) (src : Path) (st : FileStat)
    (prev : ContentRecord) (pf : FileStat),
    fsFind src s.fs = some st →
    idxFind st.digest s.index = some prev →
    (st.mtime > prev.mtime ∨ (st.mtime = prev.mtime ∧ st.size > prev.size)) →
    fsFind prev.path s.fs = some pf →
    src ≠ prev.path →
    src ≠ newPrevFor cfg s.fs prev.path →
    ∃ nm, fsFind (cfg.centralBase ++ [prev.customer, "_duplicates", nm])
      (processFile cfg s src).fs = some pf

/-- Concrete duplicate situation where the newly observed file wins: a newer
share file whose digest is indexed with an older primary. -/
def tieState : CrawlState :=
  ⟨[(["share", "x", "b.txt"], ⟨5, 3, 30⟩),
    (["sorted", "1234_acme", "Allgemein", "a.txt"], ⟨5, 3, 10⟩)],
   [(5, ⟨["sorted", "1234_acme", "Allgemein", "a.txt"], 10, 3, "1234_acme"⟩)],
   initStats⟩

/-- Concrete duplicate situation where the existing primary wins: an older
share file whose digest is indexed with a newer primary. -/
def loseState : CrawlState :=
  ⟨[(["share", "x", "b.txt"], ⟨5, 3, 5⟩),
    (["sorted", "1234_acme", "Allgemein", "a.txt"], ⟨5, 3, 10⟩)],
   [(5, ⟨["sorted", "1234_acme", "Allgemein", "a.txt"], 10, 3, "1234_acme"⟩)],
   initStats⟩

/-- Concrete duplicate situation whose indexed primary sits under a year
subfolder. -/
def yearState : CrawlState :=
  ⟨[(["share", "x", "b.txt"], ⟨7, 3, 30⟩),
    (["sorted", "1234_acme", "Projekte", "1970", "a.txt"], ⟨7, 3, 10⟩)],
   [(7, ⟨["sorted", "1234_acme", "Projekte", "1970", "a.txt"], 10, 3, "1234_acme"⟩)],
   initStats⟩

/-- Concrete crawl state with a fresh-digest share file and an unrelated file
already sitting at the classified destination. -/
def freshState : CrawlState :=
  ⟨[(["share", "x", "f.txt"], ⟨1, 1, 0⟩),
    (["sorted", "ALLGEMEIN", "Allgemein", "f.txt"], ⟨9, 2, 0⟩)],
   [], initStats⟩

/-- Idle crawler control state. -/
def idleControl : CrawlerControl := ⟨false, false, none, none⟩

/-- A configuration whose shares list is empty. -/
def emptySharesConfig : IngestConfig :=
  { centralBase := ["sorted"], internalRoots := [], shares := [],
    enableYearSubfolders := true, yearFoldersUnder := ["Projekte", "Archiv"],
    yearOf := fun _ => 1970 }

/-- Claim C6 as stated: a missing configuration file or an empty shares list
both make `start_crawler` fail immediately with a configuration error. -/
def configErrorsFatalClaim : Prop :=
  ∀ (c : CrawlerControl) (now : Nat), c.running = false →
    (∃ e, start_crawler none c now = Except.error e) ∧
    ∀ cfg : IngestConfig, cfg.shares = [] →
      ∃ e, start_crawler (some cfg) c now = Except.error e

/-- Quarantined file, index and store used to exercise `promote_duplicate`. -/
def promoteFs : Fs :=
  [(["sorted", "1234_acme", "_duplicates", "d.txt"], ⟨3, 1, 20⟩)]

/-- Hash index whose only record points at a primary path that no longer
exists on disk. -/
def promoteIdxStale : HashIndex :=
  [(3, ⟨["sorted", "1234_acme", "Allgemein", "d.txt"], 10, 1, "1234_acme"⟩)]

/-- Claim C7 as stated: for every review record, configuration, confirmed
category and set-iteration order, the confirmation destination directory
equals the directory obtained from the crawler's own customer-root resolution
and year-appending logic. -/
def reviewDestMatchesCrawlerClaim : Prop :=
  ∀ (cfg : IngestConfig) (sord : List String) (origPath : List Char) (category : String)
    (mtime : Int) (nowYear : Nat),
    sord.Perm cfg.internalRoots.dedup →
    confirm_review_dest cfg sord origPath category mtime nowYear =
      target_dir_for cfg.centralBase (determine_customer_root origPath cfg.internalRoots)
        (categorySubfolder category) cfg.enableYearSubfolders cfg.yearFoldersUnder
        cfg.yearOf mtime

/-- Configuration with two internal roots that can both match a path. -/
def twoRootsConfig : IngestConfig :=
  { centralBase := ["sorted"], internalRoots := ["ORGA", "INFRA"], shares := [["share"]],
    enableYearSubfolders := true, yearFoldersUnder := ["Projekte", "Archiv"],
    yearOf := fun _ => 1970 }

/-- Standing assumptions about a crawl run used by the dedup invariant:
sane configuration, all discovered files outside the central tree, and no two
initial files of different content classify to the same destination path. -/
structure CrawlAssumptions (cfg : IngestConfig) (init : Fs) : Prop where
  hyg : cfgHygiene cfg
  init_out : ∀ e ∈ init, ¬ underBase cfg e.1
  nocollide : ∀ p₁ f₁ p₂ f₂, (p₁, f₁) ∈ init → (p₂, f₂) ∈ init →
    f₁.digest ≠ f₂.digest → dstFor cfg p₁ f₁ ≠ dstFor cfg p₂ f₂

/-- Invariant carried through a crawl pass; `rem` is the list of discovered
files not yet processed.  Every index record points at a live file of its
digest placed at a classified destination; every non-quarantined file in the
central tree is its digest's recorded primary; files outside the central tree
are untouched initial files still awaiting processing. -/
structure CrawlInv (cfg : IngestConfig) (init : Fs) (s : CrawlState) (rem : List Path) : Prop where
  wf : fsWf s.fs
  rec_file : ∀ h r, idxFind h s.index = some r →
    ∃ f, fsFind r.path s.fs = some f ∧ f.digest = h
  rec_src : ∀ h r, idxFind h s.index = some r →
    ∃ p st, (p, st) ∈ init ∧ st.digest = h ∧ r.path = dstFor cfg p st
  central : ∀ p f, fsFind p s.fs = some f → underBase cfg p → ¬ isQuar p →
    ∃ r, idxFind f.digest s.index = some r ∧ r.path = p
  outside : ∀ p f, fsFind p s.fs = some f → ¬ underBase cfg p → (p, f) ∈ init ∧ p ∈ rem

theorem underBase_append (cfg : IngestConfig) (t : Path) :
    underBase cfg (cfg.centralBase ++ t) := by
  simp [underBase, List.take_left]

theorem ne_of_underBase {cfg : IngestConfig} {p q : Path}
    (hp : underBase cfg p) (hq : ¬ underBase cfg q) : p ≠ q := by
  intro h; exact hq (h ▸ hp)

theorem fsFind_mem {p : Path} {f : FileStat} {fs : Fs} (h : fsFind p fs = some f) :
    (p, f) ∈ fs := by
  induction fs with
  | nil => simp [fsFind] at h
  | cons e t ih =>
    obtain ⟨q, g⟩ := e
    simp only [fsFind] at h
    split at h
    · next hq =>
      injection h with h2
      subst hq; subst h2
      exact List.mem_cons_self _ _
    · next => exact List.mem_cons_of_mem _ (ih h)

theorem fsFind_eq_none_iff {p : Path} : ∀ {fs : Fs}, fsFind p fs = none ↔ p ∉ fs.map Prod.fst := by
  intro fs
  induction fs with
  | nil => simp [fsFind]
  | cons e t ih =>
    obtain ⟨q, g⟩ := e
    by_cases hq : q = p
    · subst hq; simp [fsFind]
    · simp [fsFind, hq, ih, Ne.symm hq]

theorem fsFind_erase_self (p : Path) : ∀ (fs : Fs), fsFind p (fsErase p fs) = none := by
  intro fs
  induction fs with
  | nil => simp [fsErase, fsFind]
  | cons e t ih =>
    obtain ⟨q, g⟩ := e
    by_cases hq : q = p
    · simp [fsErase, hq, ih]
    · simp [fsErase, fsFind, hq, ih]

theorem fsFind_erase_ne {p q : Path} (h : q ≠ p) : ∀ (fs : Fs), fsFind q (fsErase p fs) = fsFind q fs := by
  intro fs
  induction fs with
  | nil => simp [fsErase]
  | cons e t ih =>
    obtain ⟨k, g⟩ := e
    by_cases hk : k = p
    · subst hk
      simp [fsErase, fsFind, Ne.symm h, ih]
    · by_cases hk2 : k = q
      · subst hk2; simp [fsErase, fsFind, hk]
      · simp [fsErase, fsFind, hk, hk2, ih]

theorem fsFind_insert_self (p : Path) (f : FileStat) (fs : Fs) :
    fsFind p (fsInsert p f fs) = some f := by
  simp [fsInsert, fsFind]

theorem fsFind_insert_ne {p q : Path} (h : q ≠ p) (f : FileStat) (fs : Fs) :
    fsFind q (fsInsert p f fs) = fsFind q fs := by
  simp [fsInsert, fsFind, Ne.symm h, fsFind_erase_ne h]

theorem fsErase_sublist (p : Path) : ∀ (fs : Fs), (fsErase p fs).Sublist fs := by
  intro fs
  induction fs with
  | nil => simp [fsErase]
  | cons e t ih =>
    obtain ⟨q, g⟩ := e
    by_cases hq : q = p
    · simp [fsErase, hq]
      exact ih.cons (p, g)
    · simpa [fsErase, hq] using ih.cons₂ (q, g)

theorem fsWf_erase {fs : Fs} (h : fsWf fs) (p : Path) : fsWf (fsErase p fs) :=
  ((fsErase_sublist p fs).map Prod.fst).nodup h

theorem fsWf_insert {fs : Fs} (h : fsWf fs) (p : Path) (f : FileStat) :
    fsWf (fsInsert p f fs) := by
  simp only [fsWf, fsInsert, List.map_cons, List.nodup_cons]
  exact ⟨fsFind_eq_none_iff.mp (fsFind_erase_self p fs), fsWf_erase h p⟩

theorem idxFind_insert_self (h : Nat) (r : ContentRecord) (idx : HashIndex) :
    idxFind h (idxInsert h r idx) = some r := by
  simp [idxInsert, idxFind]

theorem idxFind_erase_ne {h k : Nat} (hne : k ≠ h) : ∀ (idx : HashIndex),
    idxFind k (idxErase h idx) = idxFind k idx := by
  intro idx
  induction idx with
  | nil => simp [idxErase]
  | cons e t ih =>
    obtain ⟨j, g⟩ := e
    by_cases hj : j = h
    · subst hj
      simp [idxErase, idxFind, Ne.symm hne, ih]
    · by_cases hj2 : j = k
      · subst hj2; simp [idxErase, idxFind, hj]
      · simp [idxErase, idxFind, hj, hj2, ih]

theorem idxFind_insert_ne {h k : Nat} (hne : k ≠ h) (r : ContentRecord) (idx : HashIndex) :
    idxFind k (idxInsert h r idx) = idxFind k idx := by
  simp [idxInsert, idxFind, Ne.symm hne, idxFind_erase_ne hne]


theorem head_takeWhile_sat {pr : Char → Bool} {l : List Char} {c : Char} {cs : List Char}
    (h : l.takeWhile pr = c :: cs) : pr c = true := by
  induction l with
  | nil => simp [List.takeWhile] at h
  | cons a t =>
    rw [List.takeWhile_cons] at h
    split at h
    · next ha => injection h with h1 _; subst h1; exact ha
    · simp at h

theorem matchCodeAt_head {l g : List Char} (h : matchCodeAt l = some g) :
    ∃ c cs, g = c :: cs ∧ c.isDigit = true := by
  simp only [matchCodeAt] at h
  split at h
  · next hlen =>
    split at h
    · next rest heq =>
      split at h
      · simp at h
      · next hw =>
        injection h with h2
        cases hds : l.takeWhile Char.isDigit with
        | nil => rw [hds] at hlen; simp at hlen
        | cons c cs =>
          rw [hds] at h2
          exact ⟨c, cs ++ '_' :: rest.takeWhile isCodeTailChar, h2.symm, head_takeWhile_sat hds⟩
    · simp at h
  · simp at h

theorem findCustomerCode_head {l g : List Char} (h : findCustomerCode l = some g) :
    ∃ c cs, g = c :: cs ∧ c.isDigit = true := by
  induction l with
  | nil => simp [findCustomerCode] at h
  | cons a t ih =>
    simp only [findCustomerCode] at h
    cases hm : matchCodeAt (a :: t) with
    | some g2 =>
      rw [hm] at h
      injection h with h2
      subst h2
      exact matchCodeAt_head hm
    | none =>
      rw [hm] at h
      exact ih h

theorem determine_customer_root_ne_dup {fp : List Char} {roots : List String}
    (hr : ∀ r ∈ roots, r ≠ "_duplicates") :
    determine_customer_root fp roots ≠ "_duplicates" := by
  unfold determine_customer_root
  split
  · next g hg =>
    obtain ⟨c, cs, rfl, hc⟩ := findCustomerCode_head hg
    intro hcon
    have : c :: cs = '_' :: "duplicates".toList := by
      have := congrArg String.toList hcon
      simpa using this
    injection this with h1 _
    subst h1
    simp at hc
  · next =>
    split
    · next r hfind => exact hr r (List.mem_of_find?_eq_some hfind)
    · next => decide

theorem determine_subfolder_mem (fp : List Char) :
    determine_subfolder fp ∈ ["Projekte", "Portale", "Kampagnen", "Angebote", "Archiv", "Allgemein"] := by
  simp only [determine_subfolder]
  split
  · next e hfind =>
    have he := List.mem_of_find?_eq_some hfind
    revert he
    simp [subfolderCandidates]
    rintro (h | h | h | h | h) <;> rw [show e.1 = (e.1, e.2).1 from rfl, h] <;> simp
  · next => simp

theorem determine_subfolder_ne_dup (fp : List Char) :
    determine_subfolder fp ≠ "_duplicates" := by
  have h := determine_subfolder_mem fp
  revert h
  simp only [List.mem_cons, List.not_mem_nil, or_false]
  rintro (h | h | h | h | h | h) <;> rw [h] <;> decide

theorem dstFor_shape (cfg : IngestConfig) (p : Path) (st : FileStat) :
    ∃ mid : Path, dstFor cfg p st = cfg.centralBase ++ (mid ++ [fileName p]) ∧
      2 ≤ mid.length ∧
      (∀ x ∈ mid, x = determine_customer_root (pathStr p) cfg.internalRoots ∨
        x = determine_subfolder (pathStr p) ∨ x = toString (cfg.yearOf st.mtime)) := by
  unfold dstFor target_dir_for
  split
  · refine ⟨[determine_customer_root (pathStr p) cfg.internalRoots,
      determine_subfolder (pathStr p), toString (cfg.yearOf st.mtime)], by simp, by simp, ?_⟩
    intro x hx
    simp only [List.mem_cons, List.not_mem_nil, or_false] at hx
    rcases hx with h | h | h
    · exact Or.inl h
    · exact Or.inr (Or.inl h)
    · exact Or.inr (Or.inr h)
  · refine ⟨[determine_customer_root (pathStr p) cfg.internalRoots,
      determine_subfolder (pathStr p)], by simp, by simp, ?_⟩
    intro x hx
    simp only [List.mem_cons, List.not_mem_nil, or_false] at hx
    rcases hx with h | h
    · exact Or.inl h
    · exact Or.inr (Or.inl h)

theorem dstFor_props {cfg : IngestConfig} (hyg : cfgHygiene cfg) (p : Path) (st : FileStat) :
    underBase cfg (dstFor cfg p st) ∧ ¬ isQuar (dstFor cfg p st) ∧
    2 ≤ (dstFor cfg p st).length ∧
    underBase cfg ((dstFor cfg p st).dropLast.dropLast) := by
  obtain ⟨mid, heq, hlen, hmem⟩ := dstFor_shape cfg p st
  obtain ⟨hyg1, hyg2, hyg3⟩ := hyg
  have hmid : "_duplicates" ∉ mid := by
    intro hin
    rcases hmem _ hin with h | h | h
    · exact determine_customer_root_ne_dup hyg2 h.symm
    · exact determine_subfolder_ne_dup (pathStr p) h.symm
    · exact hyg3 st.mtime h.symm
  have hmidne : mid ≠ [] := by
    intro hnil; rw [hnil] at hlen; simp at hlen
  have hd1 : (dstFor cfg p st).dropLast = cfg.centralBase ++ mid := by
    rw [heq, ← List.append_assoc, List.dropLast_concat]
  have hd2 : (dstFor cfg p st).dropLast.dropLast = cfg.centralBase ++ mid.dropLast := by
    rw [hd1, List.dropLast_append_of_ne_nil _ hmidne]
  refine ⟨?_, ?_, ?_, ?_⟩
  · rw [heq]; exact underBase_append cfg _
  · unfold isQuar
    rw [hd1]
    intro hin
    rcases List.mem_append.mp hin with h | h
    · exact hyg1 h
    · exact hmid h
  · rw [heq]
    simp only [List.length_append, List.length_cons]
    omega
  · rw [hd2]; exact underBase_append cfg _


theorem underBase_append_right {cfg : IngestConfig} {p : Path} (h : underBase cfg p) (t : Path) :
    underBase cfg (p ++ t) := by
  unfold underBase at *
  have hle : cfg.centralBase.length ≤ p.length := by
    have hlen := congrArg List.length h
    rw [List.length_take] at hlen
    omega
  rw [List.take_append_of_le_length hle, h]

theorem isQuar_dup_append (base : Path) (nm : String) :
    isQuar (base ++ ["_duplicates"] ++ [nm]) := by
  unfold isQuar
  rw [List.dropLast_concat]
  simp

theorem isQuar_newPrevFor (cfg : IngestConfig) (fs : Fs) (pp : Path) :
    isQuar (newPrevFor cfg fs pp) := by
  simp only [newPrevFor]
  exact isQuar_dup_append _ _

theorem isQuar_quarTargetFor (cfg : IngestConfig) (fs : Fs) (c nm : String) :
    isQuar (quarTargetFor cfg fs c nm) := by
  simp only [quarTargetFor]
  have he : cfg.centralBase ++ [c, "_duplicates"] = (cfg.centralBase ++ [c]) ++ ["_duplicates"] := by
    simp
  rw [he]
  exact isQuar_dup_append _ _

theorem underBase_quarTargetFor (cfg : IngestConfig) (fs : Fs) (c nm : String) :
    underBase cfg (quarTargetFor cfg fs c nm) := by
  simp only [quarTargetFor]
  exact underBase_append_right (underBase_append cfg _) _

theorem newPrevFor_eq (cfg : IngestConfig) (fs : Fs) {pp : Path} (hlen : 2 ≤ pp.length) :
    newPrevFor cfg fs pp =
      pp.dropLast.dropLast ++ ["_duplicates"]
      ++ [resolveDupName fs (pp.dropLast.dropLast ++ ["_duplicates"]) (fs.length + 1) 1 (fileName pp)] := by
  simp only [newPrevFor, ge_iff_le, if_pos hlen]

theorem underBase_newPrevFor {cfg : IngestConfig} (fs : Fs) {pp : Path}
    (hlen : 2 ≤ pp.length) (hub : underBase cfg pp.dropLast.dropLast) :
    underBase cfg (newPrevFor cfg fs pp) := by
  rw [newPrevFor_eq cfg fs hlen]
  exact underBase_append_right (underBase_append_right hub _) _

theorem processFile_skip (cfg : IngestConfig) (s : CrawlState) (src : Path)
    (h : fsFind src s.fs = none) : processFile cfg s src = s := by
  simp [processFile, h]

theorem processFile_new (cfg : IngestConfig) (s : CrawlState) (src : Path) (st : FileStat)
    (h1 : fsFind src s.fs = some st) (h2 : idxFind st.digest s.index = none) :
    processFile cfg s src =
      { fs := fsInsert (dstFor cfg src st) st (fsErase src s.fs),
        index := idxInsert st.digest
          ⟨dstFor cfg src st, st.mtime, st.size,
            determine_customer_root (pathStr src) cfg.internalRoots⟩ s.index,
        stats := ⟨s.stats.processed + 1, s.stats.moved + 1, s.stats.duplicates, s.stats.errors⟩ } := by
  simp [processFile, h1, h2]

theorem processFile_dup_win (cfg : IngestConfig) (s : CrawlState) (src : Path)
    (st : FileStat) (prev : ContentRecord) (pf : FileStat)
    (h1 : fsFind src s.fs = some st)
    (h2 : idxFind st.digest s.index = some prev)
    (hw : st.mtime > prev.mtime ∨ (st.mtime = prev.mtime ∧ st.size > prev.size))
    (h3 : fsFind prev.path s.fs = some pf)
    (h4 : src ≠ prev.path)
    (hnp : src ≠ newPrevFor cfg s.fs prev.path) :
    processFile cfg s src =
      { fs := fsInsert (dstFor cfg src st) st
          (fsErase src (fsInsert (newPrevFor cfg s.fs prev.path) pf (fsErase prev.path s.fs))),
        index := idxInsert st.digest
          ⟨dstFor cfg src st, st.mtime, st.size,
            determine_customer_root (pathStr src) cfg.internalRoots⟩ s.index,
        stats := ⟨s.stats.processed + 1, s.stats.moved, s.stats.duplicates + 1, s.stats.errors⟩ } := by
  have h6 : fsFind src (fsInsert (newPrevFor cfg s.fs prev.path) pf (fsErase prev.path s.fs)) = some st := by
    rw [fsFind_insert_ne hnp, fsFind_erase_ne h4, h1]
  simp [processFile, h1, h2, hw, h3, h6]

theorem processFile_dup_lose (cfg : IngestConfig) (s : CrawlState) (src : Path)
    (st : FileStat) (prev : ContentRecord)
    (h1 : fsFind src s.fs = some st)
    (h2 : idxFind st.digest s.index = some prev)
    (hl : ¬ (st.mtime > prev.mtime ∨ (st.mtime = prev.mtime ∧ st.size > prev.size))) :
    processFile cfg s src =
      { fs := fsInsert
          (quarTargetFor cfg s.fs (determine_customer_root (pathStr src) cfg.internalRoots) (fileName src))
          st (fsErase src s.fs),
        index := s.index,
        stats := ⟨s.stats.processed + 1, s.stats.moved, s.stats.duplicates + 1, s.stats.errors⟩ } := by
  simp [processFile, h1, h2, hl]


theorem crawlInv_step {cfg : IngestConfig} {init : Fs} {s : CrawlState} {rem : List Path}
    {src : Path} (A : CrawlAssumptions cfg init) (hsrc_out : ¬ underBase cfg src)
    (I : CrawlInv cfg init s (src :: rem)) :
    CrawlInv cfg init (processFile cfg s src) rem := by
  cases hsf : fsFind src s.fs with
  | none =>
    rw [processFile_skip cfg s src hsf]
    refine ⟨I.wf, I.rec_file, I.rec_src, I.central, ?_⟩
    intro p f hp hout
    obtain ⟨hmem, hin⟩ := I.outside p f hp hout
    refine ⟨hmem, ?_⟩
    rcases List.mem_cons.mp hin with rfl | h
    · rw [hsf] at hp; cases hp
    · exact h
  | some st =>
    have hsrc_init : (src, st) ∈ init := (I.outside src st hsf hsrc_out).1
    cases hidx : idxFind st.digest s.index with
    | none =>
      rw [processFile_new cfg s src st hsf hidx]
      obtain ⟨hdub, hdq, hdlen, hdub2⟩ := dstFor_props A.hyg src st
      refine ⟨?_, ?_, ?_, ?_, ?_⟩
      · exact fsWf_insert (fsWf_erase I.wf src) _ st
      · intro h r hr
        by_cases hh : h = st.digest
        · subst hh
          rw [idxFind_insert_self] at hr
          injection hr with hr2
          subst hr2
          exact ⟨st, fsFind_insert_self _ st _, rfl⟩
        · rw [idxFind_insert_ne hh] at hr
          obtain ⟨f, hf, hfd⟩ := I.rec_file h r hr
          obtain ⟨p1, st1, hp1, hd1, hpath⟩ := I.rec_src h r hr
          have hne : r.path ≠ dstFor cfg src st := by
            rw [hpath]
            exact A.nocollide p1 st1 src st hp1 hsrc_init (by rw [hd1]; exact hh)
          have hne2 : r.path ≠ src := by
            have := (dstFor_props A.hyg p1 st1).1
            exact ne_of_underBase (hpath ▸ this) hsrc_out
          refine ⟨f, ?_, hfd⟩
          rw [fsFind_insert_ne hne, fsFind_erase_ne hne2]
          exact hf
      · intro h r hr
        by_cases hh : h = st.digest
        · subst hh
          rw [idxFind_insert_self] at hr
          injection hr with hr2
          subst hr2
          exact ⟨src, st, hsrc_init, rfl, rfl⟩
        · rw [idxFind_insert_ne hh] at hr
          exact I.rec_src h r hr
      · intro p f hp hub hq
        by_cases hpd : p = dstFor cfg src st
        · subst hpd
          rw [fsFind_insert_self] at hp
          injection hp with hp2
          subst hp2
          exact ⟨_, idxFind_insert_self _ _ _, rfl⟩
        · rw [fsFind_insert_ne hpd] at hp
          have hps : p ≠ src := fun he => hsrc_out (he ▸ hub)
          rw [fsFind_erase_ne hps] at hp
          obtain ⟨r, hr, hrp⟩ := I.central p f hp hub hq
          have hfd : f.digest ≠ st.digest := by
            intro he
            rw [he, hidx] at hr
            cases hr
          refine ⟨r, ?_, hrp⟩
          rw [idxFind_insert_ne hfd]
          exact hr
      · intro p f hp hout
        have hpd : p ≠ dstFor cfg src st := fun he => hout (he ▸ hdub)
        rw [fsFind_insert_ne hpd] at hp
        have hps : p ≠ src := by
          intro he
          subst he
          rw [fsFind_erase_self] at hp
          cases hp
        rw [fsFind_erase_ne hps] at hp
        obtain ⟨hmem, hin⟩ := I.outside p f hp hout
        refine ⟨hmem, ?_⟩
        rcases List.mem_cons.mp hin with rfl | h
        · exact absurd rfl hps
        · exact h
    | some prev =>
      obtain ⟨pf, hpf, hpfd⟩ := I.rec_file st.digest prev hidx
      obtain ⟨p1, st1, hp1mem, hd1, hppath⟩ := I.rec_src st.digest prev hidx
      obtain ⟨hpub', hpq', hplen', hpd2'⟩ := dstFor_props A.hyg p1 st1
      have hpub : underBase cfg prev.path := hppath ▸ hpub'
      have hpq : ¬ isQuar prev.path := hppath ▸ hpq'
      have hplen : 2 ≤ prev.path.length := hppath ▸ hplen'
      have hpd2 : underBase cfg prev.path.dropLast.dropLast := hppath ▸ hpd2'
      have h4 : src ≠ prev.path := fun he => hsrc_out (he ▸ hpub)
      by_cases hw : st.mtime > prev.mtime ∨ (st.mtime = prev.mtime ∧ st.size > prev.size)
      · have hnpub : underBase cfg (newPrevFor cfg s.fs prev.path) :=
          underBase_newPrevFor s.fs hplen hpd2
        have hnpq : isQuar (newPrevFor cfg s.fs prev.path) := isQuar_newPrevFor cfg s.fs prev.path
        have hnp : src ≠ newPrevFor cfg s.fs prev.path := fun he => hsrc_out (he ▸ hnpub)
        rw [processFile_dup_win cfg s src st prev pf hsf hidx hw hpf h4 hnp]
        obtain ⟨hdub, hdq, hdlen, hdub2⟩ := dstFor_props A.hyg src st
        refine ⟨?_, ?_, ?_, ?_, ?_⟩
        · exact fsWf_insert (fsWf_erase (fsWf_insert (fsWf_erase I.wf prev.path) _ pf) src) _ st
        · intro h r hr
          by_cases hh : h = st.digest
          · subst hh
            rw [idxFind_insert_self] at hr
            injection hr with hr2
            subst hr2
            exact ⟨st, fsFind_insert_self _ st _, rfl⟩
          · rw [idxFind_insert_ne hh] at hr
            obtain ⟨f, hf, hfd⟩ := I.rec_file h r hr
            obtain ⟨p2, st2, hp2, hd2, hpath2⟩ := I.rec_src h r hr
            have hrdig : st2.digest ≠ st.digest := by rw [hd2]; exact hh
            have hne : r.path ≠ dstFor cfg src st := by
              rw [hpath2]
              exact A.nocollide p2 st2 src st hp2 hsrc_init hrdig
            have hne2 : r.path ≠ src := by
              have := (dstFor_props A.hyg p2 st2).1
              exact ne_of_underBase (hpath2 ▸ this) hsrc_out
            have hne3 : r.path ≠ newPrevFor cfg s.fs prev.path := by
              intro he
              have := (dstFor_props A.hyg p2 st2).2.1
              exact (hpath2 ▸ this) (he ▸ hnpq)
            have hne4 : r.path ≠ prev.path := by
              rw [hpath2, hppath]
              exact A.nocollide p2 st2 p1 st1 hp2 hp1mem (by rw [hd2, hd1]; exact hh)
            refine ⟨f, ?_, hfd⟩
            rw [fsFind_insert_ne hne, fsFind_erase_ne hne2, fsFind_insert_ne hne3,
              fsFind_erase_ne hne4]
            exact hf
        · intro h r hr
          by_cases hh : h = st.digest
          · subst hh
            rw [idxFind_insert_self] at hr
            injection hr with hr2
            subst hr2
            exact ⟨src, st, hsrc_init, rfl, rfl⟩
          · rw [idxFind_insert_ne hh] at hr
            exact I.rec_src h r hr
        · intro p f hp hub hq
          by_cases hpd : p = dstFor cfg src st
          · subst hpd
            rw [fsFind_insert_self] at hp
            injection hp with hp2
            subst hp2
            exact ⟨_, idxFind_insert_self _ _ _, rfl⟩
          · rw [fsFind_insert_ne hpd] at hp
            have hps : p ≠ src := fun he => hsrc_out (he ▸ hub)
            rw [fsFind_erase_ne hps] at hp
            have hpnp : p ≠ newPrevFor cfg s.fs prev.path := fun he => hq (he ▸ hnpq)
            rw [fsFind_insert_ne hpnp] at hp
            have hppp : p ≠ prev.path := by
              intro he
              subst he
              rw [fsFind_erase_self] at hp
              cases hp
            rw [fsFind_erase_ne hppp] at hp
            obtain ⟨r, hr, hrp⟩ := I.central p f hp hub hq
            have hfd : f.digest ≠ st.digest := by
              intro he
              rw [he, hidx] at hr
              injection hr with hr2
              exact hppp (by rw [← hrp, hr2])
            refine ⟨r, ?_, hrp⟩
            rw [idxFind_insert_ne hfd]
            exact hr
        · intro p f hp hout
          have hpd : p ≠ dstFor cfg src st := fun he => hout (he ▸ hdub)
          rw [fsFind_insert_ne hpd] at hp
          have hps : p ≠ src := by
            intro he
            subst he
            rw [fsFind_erase_self] at hp
            cases hp
          rw [fsFind_erase_ne hps] at hp
          have hpnp : p ≠ newPrevFor cfg s.fs prev.path := fun he => hout (he ▸ hnpub)
          rw [fsFind_insert_ne hpnp] at hp
          have hppp : p ≠ prev.path := fun he => hout (he ▸ hpub)
          rw [fsFind_erase_ne hppp] at hp
          obtain ⟨hmem, hin⟩ := I.outside p f hp hout
          refine ⟨hmem, ?_⟩
          rcases List.mem_cons.mp hin with rfl | h
          · exact absurd rfl hps
          · exact h
      · rw [processFile_dup_lose cfg s src st prev hsf hidx hw]
        have htq : isQuar (quarTargetFor cfg s.fs
            (determine_customer_root (pathStr src) cfg.internalRoots) (fileName src)) :=
          isQuar_quarTargetFor cfg s.fs _ _
        have htub : underBase cfg (quarTargetFor cfg s.fs
            (determine_customer_root (pathStr src) cfg.internalRoots) (fileName src)) :=
          underBase_quarTargetFor cfg s.fs _ _
        refine ⟨?_, ?_, ?_, ?_, ?_⟩
        · exact fsWf_insert (fsWf_erase I.wf src) _ st
        · intro h r hr
          obtain ⟨f, hf, hfd⟩ := I.rec_file h r hr
          obtain ⟨p2, st2, hp2, hd2, hpath2⟩ := I.rec_src h r hr
          have hne : r.path ≠ quarTargetFor cfg s.fs
              (determine_customer_root (pathStr src) cfg.internalRoots) (fileName src) := by
            intro he
            have := (dstFor_props A.hyg p2 st2).2.1
            exact (hpath2 ▸ this) (he ▸ htq)
          have hne2 : r.path ≠ src := by
            have := (dstFor_props A.hyg p2 st2).1
            exact ne_of_underBase (hpath2 ▸ this) hsrc_out
          refine ⟨f, ?_, hfd⟩
          rw [fsFind_insert_ne hne, fsFind_erase_ne hne2]
          exact hf
        · exact I.rec_src
        · intro p f hp hub hq
          by_cases hpt : p = quarTargetFor cfg s.fs
              (determine_customer_root (pathStr src) cfg.internalRoots) (fileName src)
          · exact absurd (hpt ▸ htq) hq
          · rw [fsFind_insert_ne hpt] at hp
            have hps : p ≠ src := fun he => hsrc_out (he ▸ hub)
            rw [fsFind_erase_ne hps] at hp
            exact I.central p f hp hub hq
        · intro p f hp hout
          have hpt : p ≠ quarTargetFor cfg s.fs
              (determine_customer_root (pathStr src) cfg.internalRoots) (fileName src) :=
            fun he => hout (he ▸ htub)
          rw [fsFind_insert_ne hpt] at hp
          have hps : p ≠ src := by
            intro he
            subst he
            rw [fsFind_erase_self] at hp
            cases hp
          rw [fsFind_erase_ne hps] at hp
          obtain ⟨hmem, hin⟩ := I.outside p f hp hout
          refine ⟨hmem, ?_⟩
          rcases List.mem_cons.mp hin with rfl | h
          · exact absurd rfl hps
          · exact h


theorem fsFind_of_mem_wf {fs : Fs} (wf : fsWf fs) {p : Path} {f : FileStat}
    (h : (p, f) ∈ fs) : fsFind p fs = some f := by
  induction fs with
  | nil => cases h
  | cons e t ih =>
    obtain ⟨q, g⟩ := e
    simp only [fsWf, List.map_cons, List.nodup_cons] at wf
    rcases List.mem_cons.mp h with he | ht
    · injection he with he1 he2
      subst he1; subst he2
      simp [fsFind]
    · have hq : q ≠ p := by
        intro he
        subst he
        exact wf.1 (List.mem_map_of_mem Prod.fst ht)
      simp only [fsFind, if_neg hq]
      exact ih wf.2 ht

theorem crawlInv_run {cfg : IngestConfig} {init : Fs} (A : CrawlAssumptions cfg init) :
    ∀ (rest : List Path) (s : CrawlState), (∀ p ∈ rest, ¬ underBase cfg p) →
      CrawlInv cfg init s rest → CrawlInv cfg init (crawlFiles cfg s rest) [] := by
  intro rest
  induction rest with
  | nil =>
    intro s _ I
    simpa [crawlFiles] using I
  | cons src t ih =>
    intro s hout I
    simp only [crawlFiles, List.foldl_cons]
    exact ih _ (fun p hp => hout p (List.mem_cons_of_mem _ hp))
      (crawlInv_step A (hout src (List.mem_cons_self _ _)) I)

theorem crawlInv_init {cfg : IngestConfig} {init : Fs} {files : List Path}
    (A : CrawlAssumptions cfg init) (wf0 : fsWf init)
    (hlisted : ∀ e ∈ init, e.1 ∈ files) :
    CrawlInv cfg init ⟨init, [], initStats⟩ files := by
  refine ⟨wf0, ?_, ?_, ?_, ?_⟩
  · intro h r hr; cases hr
  · intro h r hr; cases hr
  · intro p f hp hub _
    exact absurd hub (A.init_out (p, f) (fsFind_mem hp))
  · intro p f hp _
    exact ⟨fsFind_mem hp, hlisted (p, f) (fsFind_mem hp)⟩

theorem primCount_le_one (fs : Fs) (d : Nat) (wf : fsWf fs)
    (huniq : ∀ p₁ f₁ p₂ f₂, (p₁, f₁) ∈ fs → (p₂, f₂) ∈ fs →
      ¬ isQuar p₁ → f₁.digest = d → ¬ isQuar p₂ → f₂.digest = d → p₁ = p₂) :
    primCount fs d ≤ 1 := by
  unfold primCount
  rcases hfl : fs.filter (fun e => !decide (isQuar e.1) && decide (e.2.digest = d))
    with _ | ⟨a, _ | ⟨b, t⟩⟩
  · simp [hfl]
  · simp [hfl]
  · exfalso
    have ha : a ∈ fs.filter (fun e => !decide (isQuar e.1) && decide (e.2.digest = d)) := by
      rw [hfl]; exact List.mem_cons_self _ _
    have hb : b ∈ fs.filter (fun e => !decide (isQuar e.1) && decide (e.2.digest = d)) := by
      rw [hfl]; exact List.mem_cons_of_mem _ (List.mem_cons_self _ _)
    obtain ⟨haf, hap⟩ := List.mem_filter.mp ha
    obtain ⟨hbf, hbp⟩ := List.mem_filter.mp hb
    rw [Bool.and_eq_true, Bool.not_eq_true', decide_eq_false_iff_not, decide_eq_true_iff] at hap hbp
    have heq : a.1 = b.1 := huniq a.1 a.2 b.1 b.2 haf hbf hap.1 hap.2 hbp.1 hbp.2
    have hsub : (fs.filter (fun e => !decide (isQuar e.1) && decide (e.2.digest = d))).Sublist fs :=
      List.filter_sublist fs
    have hnd := ((hsub.map Prod.fst).nodup wf)
    rw [hfl] at hnd
    simp only [List.map_cons, List.nodup_cons, List.mem_cons, List.mem_map] at hnd
    exact hnd.1 (Or.inl heq)

/-- Claim C1 is false as stated: with two distinct-content files classified to
the same destination path, the second move silently overwrites the first
primary; the index entry for the overwritten digest goes stale, every later
same-digest file that wins the tie-break errors out on the missing previous
primary and is left in place, so two non-quarantined copies of digest `1`
survive the pass. -/
theorem dedup_invariant_counterexample : ¬ dedupInvariantClaim := by
  intro hcl
  have h := hcl cexConfig cexFs cexFiles (by decide) (by decide) (by decide) (by decide)
    ⟨by decide, by decide, fun _ => by change toString (1970 : Nat) ≠ "_duplicates"; decide⟩ 1
  exact absurd h (by decide)

/-- C1 (amended): the dedup invariant holds provided no two discovered files of
different content classify to the same destination path (ruling out the silent
primary overwrite): for every digest `d`, after the crawl pass completes, at
most one non-quarantined file on disk hashes to `d`. -/
theorem dedup_invariant_of_collision_free
    (cfg : IngestConfig) (init : Fs) (files : List Path)
    (hwf : fsWf init)
    (hhyg : cfgHygiene cfg)
    (hout : ∀ e ∈ init, ¬ underBase cfg e.1)
    (hlisted : ∀ e ∈ init, e.1 ∈ files)
    (hfiles : ∀ p ∈ files, ¬ underBase cfg p)
    (hnocollide : ∀ p₁ f₁ p₂ f₂, (p₁, f₁) ∈ init → (p₂, f₂) ∈ init →
      f₁.digest ≠ f₂.digest → dstFor cfg p₁ f₁ ≠ dstFor cfg p₂ f₂)
    (d : Nat) :
    primCount (crawlFiles cfg ⟨init, [], initStats⟩ files).fs d ≤ 1 := by
  have A : CrawlAssumptions cfg init := ⟨hhyg, hout, hnocollide⟩
  have IF := crawlInv_run A files ⟨init, [], initStats⟩ hfiles (crawlInv_init A hwf hlisted)
  apply primCount_le_one _ d IF.wf
  intro p₁ f₁ p₂ f₂ h1 h2 hq1 hd1 hq2 hd2
  have hf1 := fsFind_of_mem_wf IF.wf h1
  have hf2 := fsFind_of_mem_wf IF.wf h2
  have hub1 : underBase cfg p₁ := by
    by_contra hnb
    obtain ⟨_, hin⟩ := IF.outside p₁ f₁ hf1 hnb
    cases hin
  have hub2 : underBase cfg p₂ := by
    by_contra hnb
    obtain ⟨_, hin⟩ := IF.outside p₂ f₂ hf2 hnb
    cases hin
  obtain ⟨r1, hr1, hp1⟩ := IF.central p₁ f₁ hf1 hub1 hq1
  obtain ⟨r2, hr2, hp2⟩ := IF.central p₂ f₂ hf2 hub2 hq2
  rw [hd1] at hr1
  rw [hd2] at hr2
  rw [hr1] at hr2
  injection hr2 with hr3
  rw [← hp1, ← hp2, hr3]

/-- Witness for the amended dedup invariant at a concrete one-file crawl. -/
theorem dedup_invariant_of_collision_free_witness :
    primCount (crawlFiles cexConfig ⟨dedupWitnessFs, [], initStats⟩
      [["share", "x", "f.txt"]]).fs 1 ≤ 1 :=
  dedup_invariant_of_collision_free cexConfig dedupWitnessFs [["share", "x", "f.txt"]]
    (by decide) ⟨by decide, by decide, fun _ => by change toString (1970 : Nat) ≠ "_duplicates"; decide⟩
    (by decide) (by decide) (by decide)
    (by
      intro p₁ f₁ p₂ f₂ h1 h2 hd
      simp [dedupWitnessFs] at h1 h2
      rw [h1.2, h2.2] at hd
      exact absurd rfl hd) 1

/-- C2: for a newly observed file whose digest already has an index record
(with the recorded primary present and distinct from the new file), the new
file becomes the recorded primary — the index entry is replaced by a record of
the new file's destination, mtime, size and customer — if and only if its
mtime is strictly newer, or the mtimes tie and its size is strictly larger. -/
theorem resolver_tie_break (cfg : IngestConfig) (s : CrawlState) (src : Path)
    (st : FileStat) (prev : ContentRecord) (pf : FileStat)
    (h1 : fsFind src s.fs = some st)
    (h2 : idxFind st.digest s.index = some prev)
    (h3 : fsFind prev.path s.fs = some pf)
    (h4 : src ≠ prev.path)
    (h5 : src ≠ newPrevFor cfg s.fs prev.path)
    (h6 : prev ≠ ⟨dstFor cfg src st, st.mtime, st.size,
      determine_customer_root (pathStr src) cfg.internalRoots⟩) :
    idxFind st.digest (processFile cfg s src).index =
      some ⟨dstFor cfg src st, st.mtime, st.size,
        determine_customer_root (pathStr src) cfg.internalRoots⟩
    ↔ (st.mtime > prev.mtime ∨ (st.mtime = prev.mtime ∧ st.size > prev.size)) := by
  by_cases hw : st.mtime > prev.mtime ∨ (st.mtime = prev.mtime ∧ st.size > prev.size)
  · rw [processFile_dup_win cfg s src st prev pf h1 h2 hw h3 h4 h5]
    constructor
    · intro _
      exact hw
    · intro _
      exact idxFind_insert_self _ _ _
  · rw [processFile_dup_lose cfg s src st prev h1 h2 hw]
    constructor
    · intro hcon
      rw [h2] at hcon
      injection hcon with he
      exact absurd he h6
    · intro hcon
      exact absurd hcon hw

/-- Witness for C2 at a concrete state: mtime 30 beats the recorded 10. -/
theorem resolver_tie_break_witness :
    idxFind 5 (processFile cexConfig tieState ["share", "x", "b.txt"]).index =
      some ⟨dstFor cexConfig ["share", "x", "b.txt"] ⟨5, 3, 30⟩, 30, 3,
        determine_customer_root (pathStr ["share", "x", "b.txt"]) cexConfig.internalRoots⟩
    ↔ ((30 : Int) > 10 ∨ ((30 : Int) = 10 ∧ (3 : Nat) > 3)) :=
  resolver_tie_break cexConfig tieState ["share", "x", "b.txt"] ⟨5, 3, 30⟩
    ⟨["sorted", "1234_acme", "Allgemein", "a.txt"], 10, 3, "1234_acme"⟩ ⟨5, 3, 10⟩
    (by decide) (by decide) (by decide) (by decide) (by decide) (by decide)

/-- Claim C3 is false as stated: the winning new file is moved to its own
classified destination, not into the vacated primary path; at a concrete input
whose classified destination differs from the recorded primary path, nothing
ends up at the vacated primary path. -/
theorem new_winner_vacated_counterexample : ¬ newWinnerToVacatedPathClaim := by
  intro hcl
  have h := hcl cexConfig tieState ["share", "x", "b.txt"] ⟨5, 3, 30⟩
    ⟨["sorted", "1234_acme", "Allgemein", "a.txt"], 10, 3, "1234_acme"⟩ ⟨5, 3, 10⟩
    (by decide) (by decide) (by decide) (by decide) (by decide) (by decide)
  exact absurd h (by decide)

/-- C3 (amended): when the new file wins, it is moved to its own classified
destination path (which need not be the vacated primary path), and the
ContentRecord for its digest is updated to that destination with the new
file's mtime, size and classified customer. -/
theorem new_winner_moves_to_classified_destination (cfg : IngestConfig) (s : CrawlState)
    (src : Path) (st : FileStat) (prev : ContentRecord) (pf : FileStat)
    (h1 : fsFind src s.fs = some st)
    (h2 : idxFind st.digest s.index = some prev)
    (hw : st.mtime > prev.mtime ∨ (st.mtime = prev.mtime ∧ st.size > prev.size))
    (h3 : fsFind prev.path s.fs = some pf)
    (h4 : src ≠ prev.path)
    (h5 : src ≠ newPrevFor cfg s.fs prev.path) :
    fsFind (dstFor cfg src st) (processFile cfg s src).fs = some st ∧
    idxFind st.digest (processFile cfg s src).index =
      some ⟨dstFor cfg src st, st.mtime, st.size,
        determine_customer_root (pathStr src) cfg.internalRoots⟩ := by
  rw [processFile_dup_win cfg s src st prev pf h1 h2 hw h3 h4 h5]
  exact ⟨fsFind_insert_self _ _ _, idxFind_insert_self _ _ _⟩

/-- Witness for the amended C3 at a concrete state. -/
theorem new_winner_moves_to_classified_destination_witness :
    fsFind (dstFor cexConfig ["share", "x", "b.txt"] ⟨5, 3, 30⟩)
      (processFile cexConfig tieState ["share", "x", "b.txt"]).fs = some ⟨5, 3, 30⟩ ∧
    idxFind 5 (processFile cexConfig tieState ["share", "x", "b.txt"]).index =
      some ⟨dstFor cexConfig ["share", "x", "b.txt"] ⟨5, 3, 30⟩, 30, 3,
        determine_customer_root (pathStr ["share", "x", "b.txt"]) cexConfig.internalRoots⟩ :=
  new_winner_moves_to_classified_destination cexConfig tieState ["share", "x", "b.txt"]
    ⟨5, 3, 30⟩ ⟨["sorted", "1234_acme", "Allgemein", "a.txt"], 10, 3, "1234_acme"⟩ ⟨5, 3, 10⟩
    (by decide) (by decide) (by decide) (by decide) (by decide) (by decide)

/-- Claim C4 is false as stated: for a previous primary placed under a year
subfolder, the displaced file is moved to `<subfolder>/_duplicates` (the
grandparent of the primary path), not to the customer root's `_duplicates`
folder. -/
theorem displaced_primary_counterexample : ¬ displacedPrimaryToCustomerRootClaim := by
  intro hcl
  obtain ⟨nm, hnm⟩ := hcl cexConfig yearState ["share", "x", "b.txt"] ⟨7, 3, 30⟩
    ⟨["sorted", "1234_acme", "Projekte", "1970", "a.txt"], 10, 3, "1234_acme"⟩ ⟨7, 3, 10⟩
    (by decide) (by decide) (by decide) (by decide) (by decide) (by decide)
  rw [show (processFile cexConfig yearState ["share", "x", "b.txt"]).fs =
      [(["sorted", "ALLGEMEIN", "Allgemein", "b.txt"], ⟨7, 3, 30⟩),
       (["sorted", "1234_acme", "Projekte", "_duplicates", "a.txt"], ⟨7, 3, 10⟩)] from by decide] at hnm
  simp [fsFind, cexConfig] at hnm

/-- C4 (amended): when the new file wins, the displaced previous primary is
moved into the `_duplicates` folder under the grandparent directory of the
previous primary path — the customer root for primaries without a year
subfolder, but the category subfolder itself for primaries placed under a year
subfolder — with name collisions resolved by the numeric-suffix loop. -/
theorem displaced_primary_to_grandparent_quarantine (cfg : IngestConfig) (s : CrawlState)
    (src : Path) (st : FileStat) (prev : ContentRecord) (pf : FileStat)
    (hhyg : cfgHygiene cfg)
    (h1 : fsFind src s.fs = some st)
    (h2 : idxFind st.digest s.index = some prev)
    (hw : st.mtime > prev.mtime ∨ (st.mtime = prev.mtime ∧ st.size > prev.size))
    (h3 : fsFind prev.path s.fs = some pf)
    (h4 : src ≠ prev.path)
    (h5 : src ≠ newPrevFor cfg s.fs prev.path)
    (hplen : 2 ≤ prev.path.length) :
    fsFind (newPrevFor cfg s.fs prev.path) (processFile cfg s src).fs = some pf ∧
    ∃ nm, newPrevFor cfg s.fs prev.path = prev.path.dropLast.dropLast ++ ["_duplicates", nm] := by
  have hndst : newPrevFor cfg s.fs prev.path ≠ dstFor cfg src st := by
    intro he
    exact (dstFor_props hhyg src st).2.1 (he ▸ isQuar_newPrevFor cfg s.fs prev.path)
  rw [processFile_dup_win cfg s src st prev pf h1 h2 hw h3 h4 h5]
  refine ⟨?_, ?_⟩
  · rw [fsFind_insert_ne hndst, fsFind_erase_ne (Ne.symm h5), fsFind_insert_self]
  · refine ⟨resolveDupName s.fs (prev.path.dropLast.dropLast ++ ["_duplicates"])
      (s.fs.length + 1) 1 (fileName prev.path), ?_⟩
    rw [newPrevFor_eq cfg s.fs hplen]
    simp

/-- Witness for the amended C4 at a concrete year-subfolder primary. -/
theorem displaced_primary_to_grandparent_quarantine_witness :
    fsFind (newPrevFor cexConfig yearState.fs ["sorted", "1234_acme", "Projekte", "1970", "a.txt"])
      (processFile cexConfig yearState ["share", "x", "b.txt"]).fs = some ⟨7, 3, 10⟩ ∧
    ∃ nm, newPrevFor cexConfig yearState.fs ["sorted", "1234_acme", "Projekte", "1970", "a.txt"] =
      (["sorted", "1234_acme", "Projekte", "1970", "a.txt"] : Path).dropLast.dropLast
      ++ ["_duplicates", nm] :=
  displaced_primary_to_grandparent_quarantine cexConfig yearState ["share", "x", "b.txt"]
    ⟨7, 3, 30⟩ ⟨["sorted", "1234_acme", "Projekte", "1970", "a.txt"], 10, 3, "1234_acme"⟩ ⟨7, 3, 10⟩
    ⟨by decide, by decide, fun _ => by change toString (1970 : Nat) ≠ "_duplicates"; decide⟩
    (by decide) (by decide) (by decide) (by decide) (by decide) (by decide) (by decide)

/-- C5: when the existing primary wins, the new file is moved into the
`_duplicates` folder of its own classified customer root (collision-resolved
name), and nothing else changes: the hash index (in-memory and persisted,
modelled together) is exactly unchanged and the current primary file is left
untouched. -/
theorem existing_winner_frame (cfg : IngestConfig) (s : CrawlState) (src : Path)
    (st : FileStat) (prev : ContentRecord)
    (h1 : fsFind src s.fs = some st)
    (h2 : idxFind st.digest s.index = some prev)
    (hl : ¬ (st.mtime > prev.mtime ∨ (st.mtime = prev.mtime ∧ st.size > prev.size)))
    (h4 : src ≠ prev.path)
    (hpq : ¬ isQuar prev.path) :
    (∃ nm, quarTargetFor cfg s.fs (determine_customer_root (pathStr src) cfg.internalRoots)
        (fileName src)
      = cfg.centralBase ++ [determine_customer_root (pathStr src) cfg.internalRoots,
          "_duplicates", nm] ∧
      fsFind (quarTargetFor cfg s.fs (determine_customer_root (pathStr src) cfg.internalRoots)
        (fileName src)) (processFile cfg s src).fs = some st) ∧
    (processFile cfg s src).index = s.index ∧
    fsFind prev.path (processFile cfg s src).fs = fsFind prev.path s.fs := by
  have hpt : prev.path ≠ quarTargetFor cfg s.fs
      (determine_customer_root (pathStr src) cfg.internalRoots) (fileName src) := by
    intro he
    exact hpq (he ▸ isQuar_quarTargetFor cfg s.fs _ _)
  rw [processFile_dup_lose cfg s src st prev h1 h2 hl]
  refine ⟨⟨resolveDupName s.fs (cfg.centralBase ++
      [determine_customer_root (pathStr src) cfg.internalRoots, "_duplicates"])
      (s.fs.length + 1) 1 (fileName src), ?_, ?_⟩, rfl, ?_⟩
  · simp [quarTargetFor]
  · exact fsFind_insert_self _ _ _
  · rw [fsFind_insert_ne hpt, fsFind_erase_ne (Ne.symm h4)]

/-- Witness for C5 at a concrete state where the recorded primary is newer. -/
theorem existing_winner_frame_witness :
    (∃ nm, quarTargetFor cexConfig loseState.fs
        (determine_customer_root (pathStr ["share", "x", "b.txt"]) cexConfig.internalRoots)
        (fileName ["share", "x", "b.txt"])
      = cexConfig.centralBase ++
          [determine_customer_root (pathStr ["share", "x", "b.txt"]) cexConfig.internalRoots,
           "_duplicates", nm] ∧
      fsFind (quarTargetFor cexConfig loseState.fs
        (determine_customer_root (pathStr ["share", "x", "b.txt"]) cexConfig.internalRoots)
        (fileName ["share", "x", "b.txt"]))
        (processFile cexConfig loseState ["share", "x", "b.txt"]).fs = some ⟨5, 3, 5⟩) ∧
    (processFile cexConfig loseState ["share", "x", "b.txt"]).index = loseState.index ∧
    fsFind (["sorted", "1234_acme", "Allgemein", "a.txt"] : Path)
      (processFile cexConfig loseState ["share", "x", "b.txt"]).fs =
    fsFind (["sorted", "1234_acme", "Allgemein", "a.txt"] : Path) loseState.fs :=
  existing_winner_frame cexConfig loseState ["share", "x", "b.txt"] ⟨5, 3, 5⟩
    ⟨["sorted", "1234_acme", "Allgemein", "a.txt"], 10, 3, "1234_acme"⟩
    (by decide) (by decide) (by decide) (by decide) (by decide)

/-- C9: for a file whose digest has no index record, the destination is exactly
the classified target directory joined with the file's original name — no
collision suffix at primary destinations — the file is moved there (replacing
any pre-existing occupant of that exact path), and a fresh ContentRecord is
inserted. -/
theorem fresh_digest_destination (cfg : IngestConfig) (s : CrawlState) (src : Path)
    (st : FileStat)
    (h1 : fsFind src s.fs = some st)
    (h2 : idxFind st.digest s.index = none) :
    (processFile cfg s src).fs = fsInsert (dstFor cfg src st) st (fsErase src s.fs) ∧
    dstFor cfg src st =
      target_dir_for cfg.centralBase (determine_customer_root (pathStr src) cfg.internalRoots)
        (determine_subfolder (pathStr src)) cfg.enableYearSubfolders cfg.yearFoldersUnder
        cfg.yearOf st.mtime ++ [fileName src] ∧
    (processFile cfg s src).index = idxInsert st.digest
      ⟨dstFor cfg src st, st.mtime, st.size,
        determine_customer_root (pathStr src) cfg.internalRoots⟩ s.index ∧
    fsFind (dstFor cfg src st) (processFile cfg s src).fs = some st := by
  rw [processFile_new cfg s src st h1 h2]
  exact ⟨rfl, rfl, rfl, fsFind_insert_self _ _ _⟩

/-- Witness for C9 at a concrete state where an unrelated file already occupies
the classified destination and is replaced. -/
theorem fresh_digest_destination_witness :
    (processFile cexConfig freshState ["share", "x", "f.txt"]).fs =
      fsInsert (dstFor cexConfig ["share", "x", "f.txt"] ⟨1, 1, 0⟩) ⟨1, 1, 0⟩
        (fsErase ["share", "x", "f.txt"] freshState.fs) ∧
    dstFor cexConfig ["share", "x", "f.txt"] ⟨1, 1, 0⟩ =
      target_dir_for cexConfig.centralBase
        (determine_customer_root (pathStr ["share", "x", "f.txt"]) cexConfig.internalRoots)
        (determine_subfolder (pathStr ["share", "x", "f.txt"])) cexConfig.enableYearSubfolders
        cexConfig.yearFoldersUnder cexConfig.yearOf (0 : Int) ++ [fileName ["share", "x", "f.txt"]] ∧
    (processFile cexConfig freshState ["share", "x", "f.txt"]).index = idxInsert 1
      ⟨dstFor cexConfig ["share", "x", "f.txt"] ⟨1, 1, 0⟩, 0, 1,
        determine_customer_root (pathStr ["share", "x", "f.txt"]) cexConfig.internalRoots⟩
      freshState.index ∧
    fsFind (dstFor cexConfig ["share", "x", "f.txt"] ⟨1, 1, 0⟩)
      (processFile cexConfig freshState ["share", "x", "f.txt"]).fs = some ⟨1, 1, 0⟩ :=
  fresh_digest_destination cexConfig freshState ["share", "x", "f.txt"] ⟨1, 1, 0⟩
    (by decide) (by decide)

/-- Claim C6 is false as stated: only a missing configuration file is fatal;
with a present configuration whose shares list is empty, `start_crawler`
starts a (vacuous) run normally instead of failing. -/
theorem config_errors_counterexample : ¬ configErrorsFatalClaim := by
  intro hcl
  obtain ⟨e, he⟩ := (hcl idleControl 0 rfl).2 emptySharesConfig rfl
  rw [show start_crawler (some emptySharesConfig) idleControl 0 =
      Except.ok ⟨true, false, some 0, none⟩ from rfl] at he
  cases he

/-- C6 (amended): a missing configuration file fails immediately with HTTP 500
before any state is touched (the control state is returned unchanged only on
success, so no partial start occurs); an empty shares list is *not* rejected —
the crawl starts normally and, the walk of zero shares discovering zero files,
completes without processing anything. -/
theorem start_crawler_config_behaviour :
    (∀ (c : CrawlerControl) (now : Nat), c.running = false →
      start_crawler none c now = Except.error 500) ∧
    (∀ (cfg : IngestConfig) (c : CrawlerControl) (now : Nat), c.running = false →
      start_crawler (some cfg) c now = Except.ok ⟨true, false, some now, none⟩) ∧
    (∀ (cfg : IngestConfig) (s : CrawlState), crawlFiles cfg s [] = s) := by
  refine ⟨?_, ?_, ?_⟩
  · intro c now hc
    simp [start_crawler, hc]
  · intro cfg c now hc
    simp [start_crawler, hc]
  · intro cfg s
    rfl

/-- Witness for the amended C6 at concrete states. -/
theorem start_crawler_config_behaviour_witness :
    start_crawler none idleControl 0 = Except.error 500 ∧
    start_crawler (some emptySharesConfig) idleControl 0 =
      Except.ok ⟨true, false, some 0, none⟩ ∧
    crawlFiles emptySharesConfig ⟨[], [], initStats⟩ [] = ⟨[], [], initStats⟩ :=
  ⟨start_crawler_config_behaviour.1 idleControl 0 rfl,
   start_crawler_config_behaviour.2.1 emptySharesConfig idleControl 0 rfl,
   start_crawler_config_behaviour.2.2 emptySharesConfig ⟨[], [], initStats⟩⟩

/-- C10: promoting an existing quarantined file whose digest has no index
record fails with 404 (nothing returned, nothing moved); when the index record
exists but the recorded primary is missing on disk, promotion succeeds,
reports `replaced_missing_primary`, demotes nothing, and the resulting
filesystem is exactly the store with the requested duplicate moved into the
recorded primary path. -/
theorem promote_duplicate_modes (fs : Fs) (index : HashIndex) (req : Path) (f : FileStat)
    (h1 : fsFind req fs = some f) :
    (idxFind f.digest index = none → promote_duplicate fs index req = Except.error 404) ∧
    (∀ info : ContentRecord, idxFind f.digest index = some info → info.path ≠ [] →
      fsFind info.path fs = none →
      promote_duplicate fs index req =
        Except.ok ⟨true, none, fsInsert info.path f (fsErase req fs)⟩) := by
  constructor
  · intro h
    simp [promote_duplicate, h1, h]
  · intro info hi hne hmiss
    simp [promote_duplicate, h1, hi, hmiss, hne]

/-- Witness for C10: the digest of the concrete quarantined file is unindexed
(404), and with a stale record the file replaces the missing primary. -/
theorem promote_duplicate_modes_witness :
    (idxFind 3 ([] : HashIndex) = none →
      promote_duplicate promoteFs [] ["sorted", "1234_acme", "_duplicates", "d.txt"] =
        Except.error 404) ∧
    (∀ info : ContentRecord, idxFind 3 promoteIdxStale = some info → info.path ≠ [] →
      fsFind info.path promoteFs = none →
      promote_duplicate promoteFs promoteIdxStale
          ["sorted", "1234_acme", "_duplicates", "d.txt"] =
        Except.ok ⟨true, none, fsInsert info.path ⟨3, 1, 20⟩
          (fsErase ["sorted", "1234_acme", "_duplicates", "d.txt"] promoteFs)⟩) :=
  ⟨(promote_duplicate_modes promoteFs [] ["sorted", "1234_acme", "_duplicates", "d.txt"]
      ⟨3, 1, 20⟩ (by decide)).1,
   (promote_duplicate_modes promoteFs promoteIdxStale
      ["sorted", "1234_acme", "_duplicates", "d.txt"] ⟨3, 1, 20⟩ (by decide)).2⟩

theorem mem_eq_of_length_le_one {α : Type _} {l : List α} (h : l.length ≤ 1)
    {a b : α} (ha : a ∈ l) (hb : b ∈ l) : a = b := by
  cases l with
  | nil => cases ha
  | cons x t =>
    cases t with
    | nil =>
      rw [List.mem_singleton] at ha hb
      rw [ha, hb]
    | cons y u => simp at h

theorem find?_eq_of_perm_unique {pred : String → Bool} {roots sord : List String}
    (hperm : sord.Perm roots.dedup)
    (hm : (roots.dedup.filter pred).length ≤ 1) :
    sord.find? pred = roots.find? pred := by
  cases hs : sord.find? pred with
  | none =>
    cases hr : roots.find? pred with
    | none => rfl
    | some b =>
      exfalso
      have hbmem : b ∈ roots := List.mem_of_find?_eq_some hr
      have hbp : pred b = true := List.find?_some hr
      have hbs : b ∈ sord := hperm.mem_iff.mpr (List.mem_dedup.mpr hbmem)
      have := List.find?_eq_none.mp hs b hbs
      exact this hbp
  | some a =>
    have hamem : a ∈ sord := List.mem_of_find?_eq_some hs
    have hap : pred a = true := List.find?_some hs
    have haf : a ∈ roots.dedup.filter pred :=
      List.mem_filter.mpr ⟨hperm.mem_iff.mp hamem, hap⟩
    cases hr : roots.find? pred with
    | none =>
      exfalso
      have := List.find?_eq_none.mp hr a (List.mem_dedup.mp (hperm.mem_iff.mp hamem))
      exact this hap
    | some b =>
      have hbmem : b ∈ roots := List.mem_of_find?_eq_some hr
      have hbp : pred b = true := List.find?_some hr
      have hbf : b ∈ roots.dedup.filter pred :=
        List.mem_filter.mpr ⟨List.mem_dedup.mpr hbmem, hbp⟩
      rw [mem_eq_of_length_le_one hm haf hbf]

theorem review_customer_root_eq {cfg : IngestConfig} {sord : List String} {origPath : List Char}
    (hperm : sord.Perm cfg.internalRoots.dedup)
    (hm : (cfg.internalRoots.dedup.filter
      (fun r => charsContain (lowerStr r) (lowerChars origPath))).length ≤ 1) :
    review_customer_root sord origPath = determine_customer_root origPath cfg.internalRoots := by
  unfold review_customer_root determine_customer_root
  cases hf : findCustomerCode (dirnameChars origPath) with
  | some g => rfl
  | none =>
    rw [find?_eq_of_perm_unique hperm hm]

/-- Claim C7 is false as stated: the review endpoint consults the internal
roots in Python-set iteration order while the crawler uses the configured list
order; with a path matching two internal roots and a set order reversing the
list, the two computations pick different customer roots and the destination
directories differ. -/
theorem review_dest_counterexample : ¬ reviewDestMatchesCrawlerClaim := by
  intro hcl
  have h := hcl twoRootsConfig ["INFRA", "ORGA"] "x/orgainfra/f.txt".toList "unsorted" 5 2000
    (by decide)
  exact absurd h (by decide)

/-- C7 (amended): the confirmation destination directory equals the one built
from the crawler's customer-root resolution and year rule whenever at most one
internal root matches the path (the review endpoint iterates the roots as an
unordered set, so with several matches the chosen root may differ) and the
resolved mtime is nonzero (at mtime `0` the review code substitutes the
current year).  Regex resolution, the fallback bucket, and the year-appending
rule always coincide. -/
theorem review_dest_eq_crawler_dir (cfg : IngestConfig) (sord : List String)
    (origPath : List Char) (category : String) (mtime : Int) (nowYear : Nat)
    (hperm : sord.Perm cfg.internalRoots.dedup)
    (hm : (cfg.internalRoots.dedup.filter
      (fun r => charsContain (lowerStr r) (lowerChars origPath))).length ≤ 1)
    (hmt : mtime ≠ 0) :
    confirm_review_dest cfg sord origPath category mtime nowYear =
      target_dir_for cfg.centralBase (determine_customer_root origPath cfg.internalRoots)
        (categorySubfolder category) cfg.enableYearSubfolders cfg.yearFoldersUnder
        cfg.yearOf mtime := by
  unfold confirm_review_dest target_dir_for
  rw [review_customer_root_eq hperm hm]
  simp [hmt]

/-- Witness for the amended C7 at a concrete review record. -/
theorem review_dest_eq_crawler_dir_witness :
    confirm_review_dest twoRootsConfig ["INFRA", "ORGA"] "x/orga/f.txt".toList "projekte" 5 2000 =
      target_dir_for twoRootsConfig.centralBase
        (determine_customer_root "x/orga/f.txt".toList twoRootsConfig.internalRoots)
        (categorySubfolder "projekte") twoRootsConfig.enableYearSubfolders
        twoRootsConfig.yearFoldersUnder twoRootsConfig.yearOf 5 :=
  review_dest_eq_crawler_dir twoRootsConfig ["INFRA", "ORGA"] "x/orga/f.txt".toList
    "projekte" 5 2000 (by decide) (by decide) (by decide)

theorem perFileRollback_general (restore : String → Option String) :
    ∀ (ids : List String) (a b : Nat) (es : List String),
      ids.foldl
        (fun acc id =>
          match restore id with
          | none => (acc.1 + 1, acc.2.1, acc.2.2)
          | some e => (acc.1, acc.2.1 + 1, acc.2.2 ++ ["File " ++ id ++ ": " ++ e]))
        (a, b, es)
      = (a + (ids.filter (fun id => (restore id).isNone)).length,
         b + (ids.filter (fun id => (restore id).isSome)).length,
         es ++ ids.filterMap (fun id => (restore id).map (fun e => "File " ++ id ++ ": " ++ e))) := by
  intro ids
  induction ids with
  | nil => intro a b es; simp
  | cons id t ih =>
    intro a b es
    cases hr : restore id with
    | none =>
      simp only [List.foldl_cons, hr, List.filter_cons, List.filterMap_cons, Option.isNone_none,
        Option.isSome_none, Option.map_none', ih]
      refine congrArg₂ Prod.mk ?_ (congrArg₂ Prod.mk ?_ ?_) <;> simp [hr]
      omega
    | some e =>
      simp only [List.foldl_cons, hr, List.filter_cons, List.filterMap_cons, Option.isNone_some,
        Option.isSome_some, Option.map_some', ih]
      refine congrArg₂ Prod.mk ?_ (congrArg₂ Prod.mk ?_ ?_) <;> simp [hr]
      omega

theorem perFileRollback_spec (ids : List String) (restore : String → Option String) :
    perFileRollback ids restore
      = ((ids.filter (fun id => (restore id).isNone)).length,
         (ids.filter (fun id => (restore id).isSome)).length,
         ids.filterMap (fun id => (restore id).map (fun e => "File " ++ id ++ ": " ++ e))) := by
  unfold perFileRollback
  rw [perFileRollback_general restore ids 0 0 []]
  simp

theorem length_filter_isNone_add_isSome (ids : List String) (restore : String → Option String) :
    (ids.filter (fun id => (restore id).isNone)).length
      + (ids.filter (fun id => (restore id).isSome)).length = ids.length := by
  induction ids with
  | nil => rfl
  | cons id t ih =>
    cases hr : restore id with
    | none => simp [List.filter_cons, hr, ← ih]; omega
    | some e => simp [List.filter_cons, hr, ← ih]; omega

/-- C8: rollback failure isolation.  For every found snapshot (any of the five
operation types) and every per-file restore outcome, the RollbackResult counts
successes and failures over *all* file ids of the snapshot — a failing id is
recorded in the error list and counted in `files_failed` without stopping the
remaining ids — `files_restored + files_failed` equals the number of file ids,
and `success` holds iff `files_failed` is zero. -/
theorem rollback_per_file_isolation (snaps : List (String × RbSnapshot)) (sid : String)
    (snap : RbSnapshot) (restore : String → Option String) (batchRestore : Option String)
    (hfind : snapFind sid snaps = some snap) :
    (rollback_to_snapshot snaps sid restore batchRestore).filesRestored
      = (snap.fileIds.filter (fun id => (restore id).isNone)).length ∧
    (rollback_to_snapshot snaps sid restore batchRestore).filesFailed
      = (snap.fileIds.filter (fun id => (restore id).isSome)).length ∧
    (rollback_to_snapshot snaps sid restore batchRestore).filesRestored
      + (rollback_to_snapshot snaps sid restore batchRestore).filesFailed
      = snap.fileIds.length ∧
    (∀ id ∈ snap.fileIds, ∀ e, restore id = some e →
      ("File " ++ id ++ ": " ++ e) ∈ (rollback_to_snapshot snaps sid restore batchRestore).errors) ∧
    ((rollback_to_snapshot snaps sid restore batchRestore).success = true
      ↔ (rollback_to_snapshot snaps sid restore batchRestore).filesFailed = 0) := by
  obtain ⟨sid2, op, ids, bid, hbs2⟩ := snap
  have hmem_err : ∀ id ∈ ids, ∀ e, restore id = some e →
      ("File " ++ id ++ ": " ++ e) ∈
        ids.filterMap (fun i => (restore i).map (fun m => "File " ++ i ++ ": " ++ m)) := by
    intro id hid e hre
    exact List.mem_filterMap.mpr ⟨id, hid, by rw [hre]; rfl⟩
  unfold rollback_to_snapshot
  rw [hfind]
  cases op
  case batch_processing =>
    simp only [rollback_batch_processing, rollback_file_processing, perFileRollback_spec]
    cases bid with
    | none =>
      refine ⟨?_, ?_, ?_, ?_, ?_⟩ <;>
        first
          | rfl
          | trivial
          | exact length_filter_isNone_add_isSome _ _
          | exact hmem_err
          | simp [decide_eq_true_iff]
    | some b =>
      cases hbs2 with
      | false =>
        simp only [Bool.false_eq_true, if_false]
        refine ⟨?_, ?_, ?_, ?_, ?_⟩ <;>
          first
            | rfl
            | trivial
            | exact length_filter_isNone_add_isSome _ _
            | exact hmem_err
            | simp [decide_eq_true_iff]
      | true =>
        simp only [eq_self_iff_true, if_true]
        cases batchRestore with
        | none =>
          refine ⟨?_, ?_, ?_, ?_, ?_⟩ <;>
            first
              | rfl
              | trivial
              | exact length_filter_isNone_add_isSome _ _
              | exact hmem_err
              | simp [decide_eq_true_iff]
        | some e =>
          refine ⟨?_, ?_, ?_, ?_, ?_⟩
          · rfl
          · rfl
          · exact length_filter_isNone_add_isSome _ _
          · intro id hid m hre
            exact List.mem_append_left _ (hmem_err id hid m hre)
          · simp [decide_eq_true_iff]
  all_goals
    simp only [rollback_file_processing, perFileRollback_spec]
  all_goals
    refine ⟨?_, ?_, ?_, ?_, ?_⟩ <;>
      first
        | rfl
        | trivial
        | exact length_filter_isNone_add_isSome _ _
        | exact hmem_err
        | simp [decide_eq_true_iff]

/-- Witness for C8 at a concrete snapshot with one failing and one succeeding
file id. -/
theorem rollback_per_file_isolation_witness :
    (rollback_to_snapshot
        [("s1", ⟨"s1", RollbackOperation.file_processing, ["a", "b"], none, false⟩)] "s1"
        (fun id => if id = "b" then some "boom" else none) none).filesRestored
      = ((["a", "b"] : List String).filter
          (fun id => ((fun i => if i = "b" then some "boom" else none) id).isNone)).length ∧
    (rollback_to_snapshot
        [("s1", ⟨"s1", RollbackOperation.file_processing, ["a", "b"], none, false⟩)] "s1"
        (fun id => if id = "b" then some "boom" else none) none).filesFailed
      = ((["a", "b"] : List String).filter
          (fun id => ((fun i => if i = "b" then some "boom" else none) id).isSome)).length ∧
    (rollback_to_snapshot
        [("s1", ⟨"s1", RollbackOperation.file_processing, ["a", "b"], none, false⟩)] "s1"
        (fun id => if id = "b" then some "boom" else none) none).filesRestored
      + (rollback_to_snapshot
          [("s1", ⟨"s1", RollbackOperation.file_processing, ["a", "b"], none, false⟩)] "s1"
          (fun id => if id = "b" then some "boom" else none) none).filesFailed
      = (["a", "b"] : List String).length ∧
    (∀ id ∈ (["a", "b"] : List String), ∀ e,
      (if id = "b" then some "boom" else none) = some e →
      ("File " ++ id ++ ": " ++ e) ∈ (rollback_to_snapshot
        [("s1", ⟨"s1", RollbackOperation.file_processing, ["a", "b"], none, false⟩)] "s1"
        (fun id => if id = "b" then some "boom" else none) none).errors) ∧
    ((rollback_to_snapshot
        [("s1", ⟨"s1", RollbackOperation.file_processing, ["a", "b"], none, false⟩)] "s1"
        (fun id => if id = "b" then some "boom" else none) none).success = true
      ↔ (rollback_to_snapshot
          [("s1", ⟨"s1", RollbackOperation.file_processing, ["a", "b"], none, false⟩)] "s1"
          (fun id => if id = "b" then some "boom" else none) none).filesFailed = 0) :=
  rollback_per_file_isolation
    [("s1", ⟨"s1", RollbackOperation.file_processing, ["a", "b"], none, false⟩)] "s1"
    ⟨"s1", RollbackOperation.file_processing, ["a", "b"], none, false⟩
    (fun id => if id = "b" then some "boom" else none) none (by decide)


end CleanerSorter
